import Mathlib

/-!
# Verification of the asyncjson streaming encoder

A shallow embedding of `src/asyncjson/encoder.py` (the `asyncjson` package).
Python strings are modelled as lists of Unicode code points (`List Char`);
the asynchronous generator of output fragments is modelled as the list of
fragments produced together with the error, if any, that terminated the
traversal (a raised exception aborts the generator, so the fragments in the
first component are exactly those emitted before the error).  Asynchronous
sequences and synchronous generators are modelled by the list of elements
they yield; an awaitable is modelled by the value it resolves to.  Recursive
functions take an explicit fuel argument (structural recursion on `Nat`) so
that every definition is executable by kernel reduction; exhausting the fuel
is reported through a dedicated error that a faithful run never produces.
-/

set_option maxHeartbeats 4000000
set_option maxRecDepth 10000

namespace AsyncJson

/-- Python text, as the list of its Unicode code points. -/
abbrev Str := List Char

/-- A Python `float`: NaN, the two infinities, or a finite value.  The finite
payload is the exact rational value of the IEEE double. -/
inductive PyFloat where
  | nan
  | inf
  | neginf
  | finite (x : ℚ)

/-- A Python value as seen by the encoder's classifier (`value_encoder`,
encoder.py lines 317-352): text, `None`, booleans, ints, floats, lists,
tuples, dicts, synchronous generators, asynchronous generators, awaitables
(`deferred v` resolves to `v`), and values of any other runtime type, which
carry only the name of that type. -/
inductive PyVal where
  | str (s : Str)
  | int (i : ℤ)
  | float (f : PyFloat)
  | bool (b : Bool)
  | none
  | list (xs : List PyVal)
  | tuple (xs : List PyVal)
  | dict (xs : List (PyVal × PyVal))
  | gen (xs : List PyVal)
  | agen (xs : List PyVal)
  | deferred (v : PyVal)
  | other (tyname : String)

/-- The exceptions the encoder can raise.
`unencodable` is the `TypeError` of `JSONEncoder.default` (lines 153-155),
carrying the runtime type name interpolated into its message;
`outOfRangeFloat` is the `ValueError` of `floatstr` (lines 61-64), carrying
the `repr` of the offending float; `keyNotEncodable` is the `TypeError` of
`join_iterable` (lines 106-108), carrying the key's runtime type name;
`keysNotComparable` is the `TypeError` raised by `sorted` when two keys do
not support `<`, carrying the two type names.  `fuelOut` is an artifact of
the embedding only: it marks exhaustion of the structural-recursion fuel and
is never produced when the fuel is at least the size of the input. -/
inductive EncErr where
  | unencodable (tyname : String)
  | outOfRangeFloat (floatRepr : Str)
  | keyNotEncodable (tyname : String)
  | keysNotComparable (t1 t2 : String)
  | fuelOut
deriving DecidableEq

/-- The result of classifying one value: the `(typ, obj)` pair that
`value_encoder` sends back.  `scalar` is `OBJTYPE_STRING` with its
ready-to-emit payload, `seq` is `OBJTYPE_SEQUENCE`, `dct` is `OBJTYPE_DICT`,
`agen` is `OBJTYPE_ASYNC_GENERATOR`. -/
inductive Classified where
  | scalar (s : Str)
  | seq (xs : List PyVal)
  | dct (xs : List (PyVal × PyVal))
  | agen (xs : List PyVal)

/-- `type(obj).__name__` for the modelled values. -/
def pyTypeName : PyVal → String
  | .str _ => "str"
  | .int _ => "int"
  | .float _ => "float"
  | .bool _ => "bool"
  | .none => "NoneType"
  | .list _ => "list"
  | .tuple _ => "tuple"
  | .dict _ => "dict"
  | .gen _ => "generator"
  | .agen _ => "async_generator"
  | .deferred _ => "coroutine"
  | .other ty => ty

/-! ## Scalar formatter: string escaping (encoder.py lines 26-38, 69-94) -/

/-- Hexadecimal digit character, lowercase, as produced by `format(_, 'x')`;
for `k < 10` this is also the decimal digit character of `k`. -/
def hexDigit (k : Nat) : Char :=
  if k < 10 then Char.ofNat (48 + k) else Char.ofNat (87 + k)

/-- The four lowercase hex digits of `n < 0x10000`: `'\x7b0:04x\x7d'.format(n)`. -/
def toHex4 (n : Nat) : Str :=
  [hexDigit (n / 4096 % 16), hexDigit (n / 256 % 16), hexDigit (n / 16 % 16), hexDigit (n % 16)]

/-- A `\uXXXX` escape for code point `n < 0x10000`. -/
def uEscape (n : Nat) : Str := '\\' :: 'u' :: toHex4 n

/-- The seven literal entries of `ESCAPE_DCT` (lines 28-36).  The dictionary
is keyed by one-character strings; here keys are the code points. -/
def ESCAPE_DCT_base : List (Nat × Str) :=
  [(92, "\\\\".data), (34, "\\\"".data), (8, "\\b".data), (12, "\\f".data),
   (10, "\\n".data), (13, "\\r".data), (9, "\\t".data)]

/-- `dict.setdefault`: add the binding only when the key is absent. -/
def setdefault (m : List (Nat × Str)) (k : Nat) (v : Str) : List (Nat × Str) :=
  if (m.lookup k).isSome then m else m ++ [(k, v)]

/-- `ESCAPE_DCT` after the loop of lines 37-38: every code point below 0x20
gains a `\u00XX` entry unless one of the named escapes already covers it. -/
def ESCAPE_DCT : List (Nat × Str) :=
  (List.range 32).foldl (fun m i => setdefault m i (uEscape i)) ESCAPE_DCT_base

/-- One character under the `ESCAPE` pattern `[\x00-\x1f\\"\b\f\n\r\t]` of
line 26: a matching character is replaced by its `ESCAPE_DCT` entry, any
other character is kept.  (`\b\f\n\r\t` are all below 0x20, so the match
condition is: a control character, a backslash, or a double quote.) -/
def escapeChar (c : Char) : Str :=
  if c.toNat < 32 ∨ c = '\\' ∨ c = '"' then (ESCAPE_DCT.lookup c.toNat).getD [] else [c]

/-- `py_encode_basestring` (lines 69-75): full-Unicode string escaping. -/
def py_encode_basestring (s : Str) : Str :=
  '"' :: s.flatMap escapeChar ++ ['"']

/-- One character under the `ESCAPE_ASCII` pattern `([\\"]|[^\ -~])` of line
27, replaced as in lines 80-93: the `ESCAPE_DCT` entry when present, else
`\uXXXX` for code points below 0x10000, else the UTF-16 surrogate pair. -/
def escapeCharAscii (c : Char) : Str :=
  if c = '\\' ∨ c = '"' ∨ c.toNat < 32 ∨ 126 < c.toNat then
    match ESCAPE_DCT.lookup c.toNat with
    | .some r => r
    | .none =>
      let n := c.toNat
      if n < 65536 then uEscape n
      else
        let m := n - 65536
        uEscape (0xd800 ||| ((m >>> 10) &&& 0x3ff)) ++ uEscape (0xdc00 ||| (m &&& 0x3ff))
  else [c]

/-- `py_encode_basestring_ascii` (lines 78-94): ASCII-only string escaping. -/
def py_encode_basestring_ascii (s : Str) : Str :=
  '"' :: s.flatMap escapeCharAscii ++ ['"']

/-! ## Scalar formatter: numbers (encoder.py lines 46-66, 148-149) -/

/-- Decimal digits of `n`, most significant first.  The first argument is
recursion fuel; `n + 1` is always sufficient. -/
def natDigitsAux : Nat → Nat → Str
  | 0, _ => []
  | fuel + 1, n =>
    if n < 10 then [hexDigit n] else natDigitsAux fuel (n / 10) ++ [hexDigit (n % 10)]

/-- Decimal digits of `n`, most significant first, no leading zeros. -/
def natDigits (n : Nat) : Str := natDigitsAux (n + 1) n

/-- `int.__repr__` (the default `encode_int` hook, lines 148-149): canonical
decimal form, sign only for negatives. -/
def intRepr (i : ℤ) : Str :=
  (if i < 0 then ['-'] else []) ++ natDigits i.natAbs

/-- `repr` of a float: `'nan'`, `'inf'`, `'-inf'`, or the platform's shortest
round-trippable decimal representation of a finite value, which the
embedding keeps abstract as the function `frepr` (it enters `floatstr` as
the `_repr` default argument in the source). -/
def pyFloatRepr (frepr : ℚ → Str) : PyFloat → Str
  | .nan => "nan".data
  | .inf => "inf".data
  | .neginf => "-inf".data
  | .finite x => frepr x

/-- `floatstr` (lines 46-66): a finite float returns `_repr(o)` at once;
NaN and the infinities render as `NaN` / `Infinity` / `-Infinity`, but only
when `allow_nan` holds — otherwise the `ValueError` of lines 61-64. -/
def floatstr (o : PyFloat) (allow_nan : Bool) (frepr : ℚ → Str) : Except EncErr Str :=
  match o with
  | .finite x => .ok (frepr x)
  | nf =>
    if allow_nan then
      .ok (match nf with
           | .nan => "NaN".data
           | .inf => "Infinity".data
           | _ => "-Infinity".data)
    else .error (.outOfRangeFloat (pyFloatRepr frepr nf))

/-! ## Configuration

The keyword parameters of `JSONEncoder.__init__` (lines 119-151) together
with the two hook slots the claims exercise.  `ensure_ascii` selects between
the two built-in string encoders (line 138); `frepr` stands for the
platform `float.__repr__`; `default` models the `default` fallback hook —
`Option.none` is the base `JSONEncoder.default`, which raises. -/
structure Config where
  pretty : Bool := true
  sort_keys : Bool := false
  ensure_ascii : Bool := true
  allow_nan : Bool := true
  indent : Nat := 1
  item_separator : Str := ", ".data
  key_separator : Str := ": ".data
  frepr : ℚ → Str := fun _ => "0.0".data
  default : Option (PyVal → Str) := Option.none

/-- The configured string encoder (line 138). -/
def encodeString (cfg : Config) (s : Str) : Str :=
  if cfg.ensure_ascii then py_encode_basestring_ascii s else py_encode_basestring s

/-! ## The value classifier (`value_encoder`, lines 317-352) -/

/-- The `isinstance` dispatch chain of lines 330-351, applied to a value that
is already resolved (not awaited again).  A coroutine or an unrecognized
type falls through every test to the `default` hook; the base hook raises
`TypeError` naming the runtime type. -/
def classifyResolved (cfg : Config) (item : PyVal) : Except EncErr Classified :=
  match item with
  | .str s => .ok (.scalar (encodeString cfg s))
  | .none => .ok (.scalar "null".data)
  | .bool true => .ok (.scalar "true".data)
  | .bool false => .ok (.scalar "false".data)
  | .int i => .ok (.scalar (intRepr i))
  | .float f =>
    match floatstr f cfg.allow_nan cfg.frepr with
    | .ok s => .ok (.scalar s)
    | .error e => .error e
  | .list xs => .ok (.seq xs)
  | .tuple xs => .ok (.seq xs)
  | .dict xs => .ok (.dct xs)
  | .gen xs => .ok (.seq xs)
  | .agen xs => .ok (.agen xs)
  | v =>
    match cfg.default with
    | .some f => .ok (.scalar (f v))
    | .none => .error (.unencodable (pyTypeName v))

/-- One round of `value_encoder` for one sent value: line 327-328 awaits an
awaitable exactly once, then the dispatch chain classifies the result —
which is not itself re-checked for being awaitable. -/
def classify (cfg : Config) (item : PyVal) : Except EncErr Classified :=
  classifyResolved cfg (match item with
                        | .deferred v => v
                        | x => x)

/-! ## `str()` of a value, for `join_iterable` (lines 97-108)

`str(x)` falls back to `repr(x)` for every type the model covers except
`str` itself.  The `repr` of generator-like and unrecognized objects
includes a memory address in CPython; the embedding elides the address and
keeps only the stable prefix, which no claim depends on.  The `repr` of a
string is modelled without its quote-escaping refinements (none of the
claims exercise quotes inside keys of container type). -/

/-- `repr(x)`, fuel-bounded (containers recurse into their elements). -/
def pyRepr (frepr : ℚ → Str) : Nat → PyVal → Str
  | 0, _ => []
  | fuel + 1, v =>
    match v with
    | .str s => '\'' :: s ++ ['\'']
    | .int i => intRepr i
    | .float f => pyFloatRepr frepr f
    | .bool true => "True".data
    | .bool false => "False".data
    | .none => "None".data
    | .list xs =>
      '[' :: List.intercalate ", ".data (xs.map (pyRepr frepr fuel)) ++ [']']
    | .tuple [x] => '(' :: pyRepr frepr fuel x ++ ",)".data
    | .tuple xs =>
      '(' :: List.intercalate ", ".data (xs.map (pyRepr frepr fuel)) ++ [')']
    | .dict xs =>
      '\x7b' :: List.intercalate ", ".data (xs.map fun kv =>
        pyRepr frepr fuel kv.1 ++ ": ".data ++ pyRepr frepr fuel kv.2) ++ ['\x7d']
    | .gen _ => "<generator object>".data
    | .agen _ => "<async_generator object>".data
    | .deferred _ => "<coroutine object>".data
    | .other ty => '<' :: ty.data ++ " object>".data

/-- `str(x)`: the string itself for text, `repr(x)` otherwise. -/
def pyStr (frepr : ℚ → Str) (fuel : Nat) : PyVal → Str
  | .str s => s
  | v => pyRepr frepr fuel v

/-- `join_iterable` (lines 97-108): the default `encode_dictkey` hook.  A
sequence or an asynchronous generator is reduced to the concatenation of
`str(x)` over its elements in iteration order; any other classification
raises the `TypeError` of lines 107-108 naming the payload's type. -/
def join_iterable (frepr : ℚ → Str) (fuel : Nat) : Classified → Except EncErr Str
  | .seq xs => .ok ((xs.map (pyStr frepr fuel)).flatten)
  | .agen xs => .ok ((xs.map (pyStr frepr fuel)).flatten)
  | .dct _ => .error (.keyNotEncodable "dict")
  | .scalar _ => .error (.keyNotEncodable "str")

/-! ## Key ordering (`sorted` on `dict.items()`, lines 252 and 301) -/

/-- The numeric view Python's comparisons use: booleans and ints are exact
numbers, floats are themselves. -/
def numV : PyVal → Option PyFloat
  | .bool b => some (.finite (if b then 1 else 0))
  | .int i => some (.finite (i : ℚ))
  | .float f => some f
  | _ => Option.none

/-- `==` on the numeric view; NaN is equal to nothing, itself included. -/
def numEq : PyFloat → PyFloat → Bool
  | .finite a, .finite b => a == b
  | .inf, .inf => true
  | .neginf, .neginf => true
  | _, _ => false

/-- `<` on the numeric view; every comparison against NaN is false. -/
def numLt : PyFloat → PyFloat → Bool
  | .finite a, .finite b => decide (a < b)
  | .finite _, .inf => true
  | .neginf, .finite _ => true
  | .neginf, .inf => true
  | _, _ => false

/-- Code-point `<` on text, Python's string ordering. -/
def strLt : Str → Str → Bool
  | [], [] => false
  | [], _ :: _ => true
  | _ :: _, [] => false
  | a :: s, b :: t => if a = b then strLt s t else decide (a.toNat < b.toNat)

/-- Python `==`, fuel-bounded.  Numbers compare through the numeric view,
text and containers structurally; generator-like and unrecognized objects
compare by identity, which distinct model values never share. -/
def pyEq : Nat → PyVal → PyVal → Bool
  | 0, _, _ => false
  | fuel + 1, a, b =>
    match numV a, numV b with
    | some x, some y => numEq x y
    | _, _ =>
      match a, b with
      | .str s, .str t => s == t
      | .none, .none => true
      | .list xs, .list ys =>
        xs.length == ys.length && (List.zip xs ys).all fun p => pyEq fuel p.1 p.2
      | .tuple xs, .tuple ys =>
        xs.length == ys.length && (List.zip xs ys).all fun p => pyEq fuel p.1 p.2
      | .dict xs, .dict ys =>
        xs.length == ys.length &&
          (List.zip xs ys).all fun p => pyEq fuel p.1.1 p.2.1 && pyEq fuel p.1.2 p.2.2
      | _, _ => false

/-- Python `<`, fuel-bounded.  Numbers are mutually ordered, text with text,
lists with lists and tuples with tuples (lexicographically, shorter prefix
first); every other pair raises `TypeError`, modelled as
`keysNotComparable` with the two type names. -/
def pyLt : Nat → PyVal → PyVal → Except EncErr Bool
  | 0, _, _ => .error .fuelOut
  | fuel + 1, a, b =>
    match numV a, numV b with
    | some x, some y => .ok (numLt x y)
    | _, _ =>
      match a, b with
      | .str s, .str t => .ok (strLt s t)
      | .list [], .list [] => .ok false
      | .list [], .list (_ :: _) => .ok true
      | .list (_ :: _), .list [] => .ok false
      | .list (x :: xs), .list (y :: ys) =>
        if pyEq fuel x y then pyLt fuel (.list xs) (.list ys) else pyLt fuel x y
      | .tuple [], .tuple [] => .ok false
      | .tuple [], .tuple (_ :: _) => .ok true
      | .tuple (_ :: _), .tuple [] => .ok false
      | .tuple (x :: xs), .tuple (y :: ys) =>
        if pyEq fuel x y then pyLt fuel (.tuple xs) (.tuple ys) else pyLt fuel x y
      | _, _ => .error (.keysNotComparable (pyTypeName a) (pyTypeName b))

/-- `<` on `dict.items()` entries: tuple comparison, so the keys decide
unless they compare equal, in which case the values do. -/
def itemLt (fuel : Nat) (a b : PyVal × PyVal) : Except EncErr Bool :=
  if pyEq fuel a.1 b.1 then pyLt fuel a.2 b.2 else pyLt fuel a.1 b.1

/-- Stable insertion of one entry into an already sorted run, using `<` and
propagating its `TypeError` when a comparison is unsupported. -/
def insertE (fuel : Nat) (x : PyVal × PyVal) :
    List (PyVal × PyVal) → Except EncErr (List (PyVal × PyVal))
  | [] => .ok [x]
  | y :: ys =>
    match itemLt fuel x y with
    | .error e => .error e
    | .ok true => .ok (x :: y :: ys)
    | .ok false =>
      match insertE fuel x ys with
      | .error e => .error e
      | .ok zs => .ok (y :: zs)

/-- `sorted(items)`: a stable comparison sort by `<` (CPython uses Timsort;
the model uses insertion sort, which agrees on every input whose entries
are mutually ordered and raises `TypeError` as soon as a comparison is
unsupported). -/
def sortedE (fuel : Nat) (l : List (PyVal × PyVal)) : Except EncErr (List (PyVal × PyVal)) :=
  l.foldlM (fun acc x => insertE fuel x acc) []

/-! ## The traversal engine (`encoder`, lines 177-314) -/

/-- A stack frame source: `ittyp` with its live iterator.  Sequences, sync
generators and async generators all iterate a list of values here, so they
share `seqf`; a dict frame iterates its `(key, value)` entries. -/
inductive FrameSrc where
  | seqf (xs : List PyVal)
  | dictf (xs : List (PyVal × PyVal))

/-- `indent_space * n` where `indent_space = ' ' * indent` (line 194). -/
def indentFrag (cfg : Config) (n : Nat) : Str :=
  List.replicate (cfg.indent * n) ' '

/-- Prepend already-emitted fragments to a traversal result. -/
def emitThen (fs : List Str) (r : List Str × Option EncErr) : List Str × Option EncErr :=
  (fs ++ r.1, r.2)

/-- The key handling of lines 287-292 in isolation: a key classified
`OBJTYPE_STRING` is emitted as its payload; every other classification is
reduced by `encode_dictkey` (the default `join_iterable`) and the result
escaped by `encode_string`. -/
def keyFrag (cfg : Config) (fuel : Nat) (kc : Classified) : Except EncErr Str :=
  match kc with
  | .scalar s => Except.ok s
  | kc =>
    match join_iterable cfg.frepr fuel kc with
    | .ok j => .ok (encodeString cfg j)
    | .error e => .error e

/-- Run a continuation only when the previous part finished without raising
(an exception aborts the generator, keeping the fragments emitted so far). -/
def andThen (r : List Str × Option EncErr) (k : Unit → List Str × Option EncErr) :
    List Str × Option EncErr :=
  match r with
  | (fs, some e) => (fs, some e)
  | (fs, Option.none) => emitThen fs (k ())

/-- The `while stack:` loop of lines 224-312, one frame at a time.

`d` is `len(stack)` with the current frame on top.  `begun` is the flag of
lines 223/233/241: whether an item separator is due before the next entry.
A sequence-kind frame (lines 225-263): on exhaustion emit the closing
newline+indent (one fragment, at the popped depth) then `]`; on an element
emit separator and newline first, then classify — a raised classification
error leaves the newline already emitted but not the indentation (line 244
precedes line 246); a scalar is emitted after the indentation fragment, a
container emits its opening bracket, sorts a dict payload when `sort_keys`
is set (line 252 — the sort runs after the bracket was yielded), and runs
the child frame at depth `d + 1` before resuming this frame with
`begun = True`.
A dict frame (lines 265-312): the indentation fragment precedes key
classification (line 285 precedes line 288); a scalar key's payload is
emitted as-is, any other classification goes through `encode_dictkey` and
the result through `encode_string` (lines 289-292); then the key separator,
then the value exactly as in the sequence case. -/
def runFrame (cfg : Config) : Nat → Nat → FrameSrc → Bool → List Str × Option EncErr
  | 0, _, _, _ => ([], some .fuelOut)
  | _ + 1, d, .seqf [], begun =>
    ((if cfg.pretty && begun then ['\n' :: indentFrag cfg (d - 1)] else []) ++ [[']']],
     Option.none)
  | fuel + 1, d, .seqf (x :: rest), begun =>
    let pre := (if begun then [cfg.item_separator] else []) ++
               (if cfg.pretty then [['\n']] else [])
    match classify cfg x with
    | .error e => (pre, some e)
    | .ok c =>
      let ind := if cfg.pretty then [indentFrag cfg d] else []
      match c with
      | .scalar s =>
        emitThen (pre ++ ind ++ [s]) (runFrame cfg fuel d (.seqf rest) true)
      | .seq ys =>
        emitThen (pre ++ ind ++ [['[']])
          (andThen (runFrame cfg fuel (d + 1) (.seqf ys) false)
            fun _ => runFrame cfg fuel d (.seqf rest) true)
      | .agen ys =>
        emitThen (pre ++ ind ++ [['[']])
          (andThen (runFrame cfg fuel (d + 1) (.seqf ys) false)
            fun _ => runFrame cfg fuel d (.seqf rest) true)
      | .dct ys =>
        match if cfg.sort_keys then sortedE fuel ys else .ok ys with
        | .error e => (pre ++ ind ++ [['\x7b']], some e)
        | .ok zs =>
          emitThen (pre ++ ind ++ [['\x7b']])
            (andThen (runFrame cfg fuel (d + 1) (.dictf zs) false)
              fun _ => runFrame cfg fuel d (.seqf rest) true)
  | _ + 1, d, .dictf [], begun =>
    ((if cfg.pretty && begun then ['\n' :: indentFrag cfg (d - 1)] else []) ++ [['\x7d']],
     Option.none)
  | fuel + 1, d, .dictf ((k, v) :: rest), begun =>
    let pre := (if begun then [cfg.item_separator] else []) ++
               (if cfg.pretty then [['\n']] else [])
    let ind := if cfg.pretty then [indentFrag cfg d] else []
    match classify cfg k with
    | .error e => (pre ++ ind, some e)
    | .ok kc =>
      match keyFrag cfg fuel kc with
      | .error e => (pre ++ ind, some e)
      | .ok kf =>
        match classify cfg v with
        | .error e => (pre ++ ind ++ [kf, cfg.key_separator], some e)
        | .ok vc =>
          match vc with
          | .scalar s =>
            emitThen (pre ++ ind ++ [kf, cfg.key_separator, s])
              (runFrame cfg fuel d (.dictf rest) true)
          | .seq ys =>
            emitThen (pre ++ ind ++ [kf, cfg.key_separator, ['[']])
              (andThen (runFrame cfg fuel (d + 1) (.seqf ys) false)
                fun _ => runFrame cfg fuel d (.dictf rest) true)
          | .agen ys =>
            emitThen (pre ++ ind ++ [kf, cfg.key_separator, ['[']])
              (andThen (runFrame cfg fuel (d + 1) (.seqf ys) false)
                fun _ => runFrame cfg fuel d (.dictf rest) true)
          | .dct ys =>
            match if cfg.sort_keys then sortedE fuel ys else .ok ys with
            | .error e => (pre ++ ind ++ [kf, cfg.key_separator, ['\x7b']], some e)
            | .ok zs =>
              emitThen (pre ++ ind ++ [kf, cfg.key_separator, ['\x7b']])
                (andThen (runFrame cfg fuel (d + 1) (.dictf zs) false)
                  fun _ => runFrame cfg fuel d (.dictf rest) true)

/-- `encoder` (lines 177-314): classify the root (lines 206-222) — a scalar
is one fragment and the call ends; a dict opens `\x7b` and iterates
`vobj.items()` **unsorted** (line 210 has no `sorted`, unlike the nested
cases); sequence kinds open `[`.  The returned pair is the list of yielded
fragments together with the exception, if any, that aborted the
traversal. -/
def encoder (cfg : Config) (fuel : Nat) (vobj : PyVal) : List Str × Option EncErr :=
  match classify cfg vobj with
  | .error e => ([], some e)
  | .ok (.scalar s) => ([s], Option.none)
  | .ok (.seq xs) => emitThen [['[']] (runFrame cfg fuel 1 (.seqf xs) false)
  | .ok (.agen xs) => emitThen [['[']] (runFrame cfg fuel 1 (.seqf xs) false)
  | .ok (.dct xs) => emitThen [['\x7b']] (runFrame cfg fuel 1 (.dictf xs) false)

/-! ## Supporting lemmas -/

/-- On success, a frame's fragment list ends with its own closing bracket:
`]` for a sequence-kind frame, the closing brace for a dict frame. -/
def closeBracket : FrameSrc → Str
  | .seqf _ => [']']
  | .dictf _ => ['\x7d']

theorem emitThen_snd (fs : List Str) (r : List Str × Option EncErr) :
    (emitThen fs r).2 = r.2 := rfl

theorem emitThen_getLast (fs : List Str) (r : List Str × Option EncErr) (c : Str)
    (h : r.1.getLast? = some c) : (emitThen fs r).1.getLast? = some c := by
  have hne : r.1 ≠ [] := by intro hn; rw [hn] at h; simp at h
  show (fs ++ r.1).getLast? = some c
  rw [List.getLast?_append_of_ne_nil _ hne, h]

theorem andThen_snd_none {r : List Str × Option EncErr} {k : Unit → List Str × Option EncErr}
    (h : (andThen r k).2 = Option.none) : r.2 = Option.none ∧ (k ()).2 = Option.none := by
  match r, h with
  | (fs, some e), h => simp [andThen] at h
  | (fs, Option.none), h => exact ⟨rfl, h⟩

theorem andThen_getLast {r : List Str × Option EncErr} {k : Unit → List Str × Option EncErr}
    {c : Str} (hr : r.2 = Option.none) (h : (k ()).1.getLast? = some c) :
    (andThen r k).1.getLast? = some c := by
  match r, hr with
  | (fs, Option.none), _ => exact emitThen_getLast _ _ _ h
  | (fs, some e), hr => simp at hr

theorem runFrame_getLast (cfg : Config) :
    ∀ (fuel d : Nat) (fr : FrameSrc) (b : Bool),
      (runFrame cfg fuel d fr b).2 = Option.none →
      (runFrame cfg fuel d fr b).1.getLast? = some (closeBracket fr) := by
  intro fuel
  induction fuel with
  | zero => intro d fr b h; simp [runFrame] at h
  | succ fuel ih =>
    intro d fr b h
    match fr with
    | .seqf [] => simp [runFrame, closeBracket]
    | .dictf [] => simp [runFrame, closeBracket]
    | .seqf (x :: rest) =>
      rw [runFrame] at h ⊢
      revert h
      cases hc : classify cfg x with
      | error e => intro h; simp at h
      | ok c =>
        cases c with
        | scalar s =>
          intro h
          exact emitThen_getLast _ _ _ (ih d (.seqf rest) true h)
        | seq ys =>
          intro h
          rw [emitThen_snd] at h
          exact emitThen_getLast _ _ _
            (andThen_getLast (andThen_snd_none h).1 (ih d (.seqf rest) true (andThen_snd_none h).2))
        | agen ys =>
          intro h
          rw [emitThen_snd] at h
          exact emitThen_getLast _ _ _
            (andThen_getLast (andThen_snd_none h).1 (ih d (.seqf rest) true (andThen_snd_none h).2))
        | dct ys =>
          dsimp only
          cases hs : (if cfg.sort_keys then sortedE fuel ys else .ok ys) with
          | error e => intro h; simp at h
          | ok zs =>
            intro h
            rw [emitThen_snd] at h
            exact emitThen_getLast _ _ _
              (andThen_getLast (andThen_snd_none h).1 (ih d (.seqf rest) true (andThen_snd_none h).2))
    | .dictf ((k, v) :: rest) =>
      rw [runFrame] at h ⊢
      revert h
      cases hk : classify cfg k with
      | error e => intro h; simp at h
      | ok kc =>
        dsimp only
        cases hkf : keyFrag cfg fuel kc with
        | error e => intro h; simp at h
        | ok kf =>
          dsimp only
          cases hv : classify cfg v with
          | error e => intro h; simp at h
          | ok vc =>
            cases vc with
            | scalar s =>
              intro h
              exact emitThen_getLast _ _ _ (ih d (.dictf rest) true h)
            | seq ys =>
              intro h
              rw [emitThen_snd] at h
              exact emitThen_getLast _ _ _
                (andThen_getLast (andThen_snd_none h).1
                  (ih d (.dictf rest) true (andThen_snd_none h).2))
            | agen ys =>
              intro h
              rw [emitThen_snd] at h
              exact emitThen_getLast _ _ _
                (andThen_getLast (andThen_snd_none h).1
                  (ih d (.dictf rest) true (andThen_snd_none h).2))
            | dct ys =>
              dsimp only
              cases hs : (if cfg.sort_keys then sortedE fuel ys else .ok ys) with
              | error e => intro h; simp at h
              | ok zs =>
                intro h
                rw [emitThen_snd] at h
                exact emitThen_getLast _ _ _
                  (andThen_getLast (andThen_snd_none h).1
                    (ih d (.dictf rest) true (andThen_snd_none h).2))

/-- A lookup in a code-point-keyed table misses when every key is below 127
and the probe is not. -/
theorem lookup_none_of_keys_lt {n : Nat} (l : List (Nat × Str))
    (hk : ∀ p ∈ l, p.1 < 127) (h : 126 < n) : l.lookup n = Option.none := by
  induction l with
  | nil => rfl
  | cons p rest ih =>
    have h1 : p.1 < 127 := hk p (List.mem_cons_self _ _)
    have hne : (n == p.1) = false := by
      simp only [beq_eq_false_iff_ne, ne_eq]
      omega
    simp only [List.lookup, hne]
    exact ih fun q hq => hk q (List.mem_cons_of_mem _ hq)

/-- Every `ESCAPE_DCT` key is an ASCII code point. -/
theorem ESCAPE_DCT_keys_small : ∀ p ∈ ESCAPE_DCT, p.1 < 127 := by decide

/-- The `setdefault` loop fills in `\u00XX` entries exactly for the control
characters the named escapes do not cover. -/
theorem ESCAPE_DCT_control {n : Nat} (h : n < 32)
    (h8 : n ≠ 8) (h9 : n ≠ 9) (h10 : n ≠ 10) (h12 : n ≠ 12) (h13 : n ≠ 13) :
    ESCAPE_DCT.lookup n = some (uEscape n) := by
  interval_cases n <;> first | (exfalso; omega) | decide

/-! ## Bracket matching -/

/-- A fragment that is none of the four bracket fragments the engine emits
(the engine's structural brackets are exactly the one-character fragments
`[`, `]` and the two braces; payload fragments are quoted strings, numbers,
literals, separators and whitespace). -/
def nonBracket (f : Str) : Prop :=
  f ≠ ['['] ∧ f ≠ [']'] ∧ f ≠ ['\x7b'] ∧ f ≠ ['\x7d']

instance (f : Str) : Decidable (nonBracket f) := by
  unfold nonBracket
  infer_instance

/-- Walk a fragment sequence keeping the stack of expected closing brackets:
an opening fragment pushes its closer, a closing fragment must match the top
of the stack and pops it, any other fragment is passed over.  `some stk` is
the stack after the walk; `none` means a closing bracket appeared at the
wrong depth or with the wrong shape. -/
def bwalk : List Str → List Str → Option (List Str)
  | stk, [] => some stk
  | stk, f :: fs =>
    if f = ['['] then bwalk ([']'] :: stk) fs
    else if f = ['\x7b'] then bwalk (['\x7d'] :: stk) fs
    else if f = [']'] ∨ f = ['\x7d'] then
      match stk with
      | t :: stk2 => if t = f then bwalk stk2 fs else Option.none
      | [] => Option.none
    else bwalk stk fs

theorem bwalk_skip {f : Str} (h : nonBracket f) (stk : List Str) (fs : List Str) :
    bwalk stk (f :: fs) = bwalk stk fs := by
  obtain ⟨h1, h2, h3, h4⟩ := h
  simp [bwalk, h1, h2, h3, h4]

theorem bwalk_skipAll {fs : List Str} (h : ∀ f ∈ fs, nonBracket f) :
    ∀ (stk : List Str) (gs : List Str), bwalk stk (fs ++ gs) = bwalk stk gs := by
  induction fs with
  | nil => intro stk gs; rfl
  | cons f ft ih =>
    intro stk gs
    rw [List.cons_append, bwalk_skip (h f (List.mem_cons_self _ _))]
    exact ih (fun g hg => h g (List.mem_cons_of_mem _ hg)) stk gs

theorem bwalk_open_sq (stk : List Str) (fs : List Str) :
    bwalk stk (['['] :: fs) = bwalk ([']'] :: stk) fs := by simp [bwalk]

theorem bwalk_open_br (stk : List Str) (fs : List Str) :
    bwalk stk (['\x7b'] :: fs) = bwalk (['\x7d'] :: stk) fs := by simp [bwalk]

theorem bwalk_close_sq (stk : List Str) (fs : List Str) :
    bwalk ([']'] :: stk) ([']'] :: fs) = bwalk stk fs := by simp [bwalk]

theorem bwalk_close_br (stk : List Str) (fs : List Str) :
    bwalk (['\x7d'] :: stk) (['\x7d'] :: fs) = bwalk stk fs := by simp [bwalk]

theorem bwalk_append {a : List Str} : ∀ {stk s2 : List Str},
    bwalk stk a = some s2 → ∀ b, bwalk stk (a ++ b) = bwalk s2 b := by
  induction a with
  | nil =>
    intro stk s2 h b
    simp only [bwalk, Option.some.injEq] at h
    subst h
    rfl
  | cons f ft ih =>
    intro stk s2 h b
    simp only [bwalk] at h
    rw [show (f :: ft) ++ b = f :: (ft ++ b) from rfl]
    simp only [bwalk]
    by_cases h1 : f = ['[']
    · rw [if_pos h1] at h ⊢
      exact ih h b
    · rw [if_neg h1] at h ⊢
      by_cases h2 : f = ['\x7b']
      · rw [if_pos h2] at h ⊢
        exact ih h b
      · rw [if_neg h2] at h ⊢
        by_cases h3 : f = [']'] ∨ f = ['\x7d']
        · rw [if_pos h3] at h ⊢
          match stk with
          | [] => exact absurd h (by simp)
          | t :: stk2 =>
            dsimp only at h ⊢
            by_cases h4 : t = f
            · rw [if_pos h4] at h ⊢
              exact ih h b
            · rw [if_neg h4] at h
              exact absurd h (by simp)
        · rw [if_neg h3] at h ⊢
          exact ih h b

theorem nonBracket_of_head {c : Char} (t : Str)
    (h1 : c ≠ '[') (h2 : c ≠ ']') (h3 : c ≠ '\x7b') (h4 : c ≠ '\x7d') :
    nonBracket (c :: t) := by
  refine ⟨fun he => ?_, fun he => ?_, fun he => ?_, fun he => ?_⟩
  · injection he with hc _; exact h1 hc
  · injection he with hc _; exact h2 hc
  · injection he with hc _; exact h3 hc
  · injection he with hc _; exact h4 hc

theorem nonBracket_newline : nonBracket ['\n'] := by decide

theorem indentFrag_nonBracket (cfg : Config) (d : Nat) : nonBracket (indentFrag cfg d) := by
  unfold indentFrag
  cases cfg.indent * d with
  | zero => decide
  | succ n => exact nonBracket_of_head _ (by decide) (by decide) (by decide) (by decide)

theorem hexDigit_lt10_toNat {m : Nat} (h : m < 10) : (hexDigit m).toNat = 48 + m := by
  interval_cases m <;> decide

theorem natDigitsAux_chars :
    ∀ (fuel n : Nat), ∀ c ∈ natDigitsAux fuel n, 48 ≤ c.toNat ∧ c.toNat ≤ 57 := by
  intro fuel
  induction fuel with
  | zero => intro n c hc; simp [natDigitsAux] at hc
  | succ fuel ih =>
    intro n c hc
    simp only [natDigitsAux] at hc
    by_cases h : n < 10
    · rw [if_pos h] at hc
      simp only [List.mem_singleton] at hc
      subst hc
      rw [hexDigit_lt10_toNat h]
      omega
    · rw [if_neg h] at hc
      rcases List.mem_append.mp hc with h2 | h2
      · exact ih _ c h2
      · simp only [List.mem_singleton] at h2
        subst h2
        rw [hexDigit_lt10_toNat (Nat.mod_lt _ (by omega))]
        omega

theorem intRepr_nonBracket (i : ℤ) : nonBracket (intRepr i) := by
  unfold intRepr
  by_cases h : i < 0
  · rw [if_pos h]
    exact nonBracket_of_head _ (by decide) (by decide) (by decide) (by decide)
  · rw [if_neg h]
    have hm : ∀ c ∈ ([] ++ natDigits i.natAbs : Str), 48 ≤ c.toNat ∧ c.toNat ≤ 57 := by
      intro c hc
      exact natDigitsAux_chars _ _ c (by simpa using hc)
    refine ⟨fun he => ?_, fun he => ?_, fun he => ?_, fun he => ?_⟩
    · exact absurd (hm '[' (by rw [he]; exact List.mem_singleton_self _)) (by decide)
    · exact absurd (hm ']' (by rw [he]; exact List.mem_singleton_self _)) (by decide)
    · exact absurd (hm '\x7b' (by rw [he]; exact List.mem_singleton_self _)) (by decide)
    · exact absurd (hm '\x7d' (by rw [he]; exact List.mem_singleton_self _)) (by decide)

theorem encodeString_nonBracket (cfg : Config) (s : Str) :
    nonBracket (encodeString cfg s) := by
  unfold encodeString py_encode_basestring py_encode_basestring_ascii
  split <;> exact nonBracket_of_head _ (by decide) (by decide) (by decide) (by decide)

/-- A configuration whose configurable text pieces are never one of the four
bracket fragments: the default separators and float repr qualify, and no
fallback encoder is installed.  Under such a configuration the only bracket
fragments in the output are the structural ones the engine emits. -/
structure GoodCfg (cfg : Config) : Prop where
  isep : nonBracket cfg.item_separator
  ksep : nonBracket cfg.key_separator
  fr : ∀ q : ℚ, nonBracket (cfg.frepr q)
  dflt : cfg.default = Option.none

theorem classifyResolved_scalar_nonBracket {cfg : Config} (hg : GoodCfg cfg) {v : PyVal}
    {s : Str} (h : classifyResolved cfg v = .ok (.scalar s)) : nonBracket s := by
  cases v with
  | str t =>
    simp only [classifyResolved, Except.ok.injEq, Classified.scalar.injEq] at h
    exact h ▸ encodeString_nonBracket cfg t
  | int i =>
    simp only [classifyResolved, Except.ok.injEq, Classified.scalar.injEq] at h
    exact h ▸ intRepr_nonBracket i
  | bool b =>
    cases b <;>
      simp only [classifyResolved, Except.ok.injEq, Classified.scalar.injEq] at h <;>
      exact h ▸ (by decide)
  | none =>
    simp only [classifyResolved, Except.ok.injEq, Classified.scalar.injEq] at h
    exact h ▸ (by decide)
  | float f =>
    cases f with
    | finite x =>
      simp only [classifyResolved, floatstr, Except.ok.injEq, Classified.scalar.injEq] at h
      exact h ▸ hg.fr x
    | nan =>
      cases hal : cfg.allow_nan
      · simp [classifyResolved, floatstr, hal] at h
      · simp [classifyResolved, floatstr, hal] at h
        subst h
        decide
    | inf =>
      cases hal : cfg.allow_nan
      · simp [classifyResolved, floatstr, hal] at h
      · simp [classifyResolved, floatstr, hal] at h
        subst h
        decide
    | neginf =>
      cases hal : cfg.allow_nan
      · simp [classifyResolved, floatstr, hal] at h
      · simp [classifyResolved, floatstr, hal] at h
        subst h
        decide
  | list xs => simp [classifyResolved] at h
  | tuple xs => simp [classifyResolved] at h
  | dict xs => simp [classifyResolved] at h
  | gen xs => simp [classifyResolved] at h
  | agen xs => simp [classifyResolved] at h
  | deferred w => simp [classifyResolved, hg.dflt] at h
  | other ty => simp [classifyResolved, hg.dflt] at h

theorem classify_scalar_nonBracket {cfg : Config} (hg : GoodCfg cfg) {v : PyVal} {s : Str}
    (h : classify cfg v = .ok (.scalar s)) : nonBracket s := by
  cases v <;> exact classifyResolved_scalar_nonBracket hg h

theorem keyFrag_nonBracket {cfg : Config} (hg : GoodCfg cfg) {fuel : Nat} {k : PyVal}
    {kc : Classified} {kf : Str} (hkc : classify cfg k = .ok kc)
    (h : keyFrag cfg fuel kc = .ok kf) : nonBracket kf := by
  cases kc with
  | scalar s =>
    simp only [keyFrag, Except.ok.injEq] at h
    exact h ▸ classify_scalar_nonBracket hg hkc
  | seq xs =>
    simp only [keyFrag, join_iterable, Except.ok.injEq] at h
    exact h ▸ encodeString_nonBracket cfg _
  | agen xs =>
    simp only [keyFrag, join_iterable, Except.ok.injEq] at h
    exact h ▸ encodeString_nonBracket cfg _
  | dct ys => simp [keyFrag, join_iterable] at h

theorem mem_flag_singleton {f x : Str} {c : Bool}
    (h : f ∈ (if c then [x] else ([] : List Str))) : f = x := by
  cases c
  · simp at h
  · simpa using h

theorem preind_all3 {cfg : Config} (hg : GoodCfg cfg) (b : Bool) (d : Nat) :
    ∀ f ∈ ((if b then [cfg.item_separator] else []) ++ (if cfg.pretty then [['\n']] else []) ++
           (if cfg.pretty then [indentFrag cfg d] else [])), nonBracket f := by
  intro f hf
  rcases List.mem_append.mp hf with hf | hf
  · rcases List.mem_append.mp hf with hf | hf
    · rw [mem_flag_singleton hf]; exact hg.isep
    · rw [mem_flag_singleton hf]; exact nonBracket_newline
  · rw [mem_flag_singleton hf]; exact indentFrag_nonBracket cfg d

theorem preind_all {cfg : Config} (hg : GoodCfg cfg) (b : Bool) (d : Nat) {extra : List Str}
    (hx : ∀ f ∈ extra, nonBracket f) :
    ∀ f ∈ ((if b then [cfg.item_separator] else []) ++ (if cfg.pretty then [['\n']] else []) ++
           (if cfg.pretty then [indentFrag cfg d] else []) ++ extra), nonBracket f := by
  intro f hf
  rcases List.mem_append.mp hf with hf | hf
  · exact preind_all3 hg b d f hf
  · exact hx f hf

theorem andThen_fst {r : List Str × Option EncErr} {k : Unit → List Str × Option EncErr}
    (h : r.2 = Option.none) : (andThen r k).1 = r.1 ++ (k ()).1 := by
  match r, h with
  | (fs, Option.none), _ => rfl

theorem bwalk_skip_run {X : List Str} (hX : ∀ f ∈ X, nonBracket f) {stk s1 : List Str}
    {rfs : List Str} (hrest : bwalk stk rfs = some s1) : bwalk stk (X ++ rfs) = some s1 := by
  rw [bwalk_skipAll hX, hrest]

theorem bwalk_open_run {X : List Str} (hX : ∀ f ∈ X, nonBracket f) {br cl : Str}
    (hb : br = ['['] ∧ cl = [']'] ∨ br = ['\x7b'] ∧ cl = ['\x7d'])
    {stk s1 : List Str} {child rfs : List Str}
    (hchild : bwalk (cl :: stk) child = some stk)
    (hrest : bwalk stk rfs = some s1) :
    bwalk stk ((X ++ [br]) ++ (child ++ rfs)) = some s1 := by
  rw [List.append_assoc, bwalk_skipAll hX]
  rcases hb with ⟨hb1, hb2⟩ | ⟨hb1, hb2⟩ <;> subst hb1 <;> subst hb2
  · rw [show ([['[']] ++ (child ++ rfs) : List Str) = ['['] :: (child ++ rfs) from rfl,
      bwalk_open_sq, bwalk_append hchild, hrest]
  · rw [show ([['\x7b']] ++ (child ++ rfs) : List Str) = ['\x7b'] :: (child ++ rfs) from rfl,
      bwalk_open_br, bwalk_append hchild, hrest]

theorem bwalk_open_run3 {X : List Str} (hX : ∀ f ∈ X, nonBracket f) {kf ksep : Str}
    (hkf : nonBracket kf) (hksep : nonBracket ksep) {br cl : Str}
    (hb : br = ['['] ∧ cl = [']'] ∨ br = ['\x7b'] ∧ cl = ['\x7d'])
    {stk s1 : List Str} {child rfs : List Str}
    (hchild : bwalk (cl :: stk) child = some stk)
    (hrest : bwalk stk rfs = some s1) :
    bwalk stk ((X ++ [kf, ksep, br]) ++ (child ++ rfs)) = some s1 := by
  rw [show (X ++ [kf, ksep, br] : List Str) = (X ++ [kf, ksep]) ++ [br] by simp]
  refine bwalk_open_run ?_ hb hchild hrest
  intro f hf
  rcases List.mem_append.mp hf with hf | hf
  · exact hX f hf
  · simp only [List.mem_cons, List.not_mem_nil, or_false] at hf
    rcases hf with hf | hf
    · exact hf ▸ hkf
    · exact hf ▸ hksep

theorem bwalk_close_run {W : List Str} (hW : ∀ f ∈ W, nonBracket f) {cl : Str}
    (hcl : cl = [']'] ∨ cl = ['\x7d']) (stk : List Str) :
    bwalk (cl :: stk) (W ++ [cl]) = some stk := by
  rw [bwalk_skipAll hW]
  rcases hcl with h | h <;> subst h
  · rw [show ([[']']] : List Str) = [']'] :: [] from rfl, bwalk_close_sq]; rfl
  · rw [show ([['\x7d']] : List Str) = ['\x7d'] :: [] from rfl, bwalk_close_br]; rfl

theorem closews_all (cfg : Config) (p : Bool) (d : Nat) :
    ∀ f ∈ (if p then [('\n' :: indentFrag cfg d : Str)] else []), nonBracket f := by
  intro f hf
  rw [mem_flag_singleton hf]
  exact nonBracket_of_head _ (by decide) (by decide) (by decide) (by decide)

/-- On a successful run, a frame's fragments, walked from a stack whose top
expects that frame's own closing bracket, pop exactly that one entry: every
bracket opened inside is closed inside, at its own depth. -/
theorem runFrame_balanced (cfg : Config) (hg : GoodCfg cfg) :
    ∀ (fuel d : Nat) (fr : FrameSrc) (b : Bool) (stk : List Str),
      (runFrame cfg fuel d fr b).2 = Option.none →
      bwalk (closeBracket fr :: stk) (runFrame cfg fuel d fr b).1 = some stk := by
  intro fuel
  induction fuel with
  | zero => intro d fr b stk h; simp [runFrame] at h
  | succ fuel ih =>
    intro d fr b stk h
    match fr with
    | .seqf [] =>
      rw [runFrame]
      exact bwalk_close_run (closews_all cfg _ _) (Or.inl rfl) stk
    | .dictf [] =>
      rw [runFrame]
      exact bwalk_close_run (closews_all cfg _ _) (Or.inr rfl) stk
    | .seqf (x :: rest) =>
      rw [runFrame] at h ⊢
      revert h
      cases hc : classify cfg x with
      | error e => intro h; simp at h
      | ok c =>
        cases c with
        | scalar s =>
          intro h
          simp only [emitThen]
          exact bwalk_skip_run
            (preind_all hg b d (fun f hf => by
              simp only [List.mem_singleton] at hf
              exact hf ▸ classify_scalar_nonBracket hg hc))
            (ih d (.seqf rest) true stk h)
        | seq ys =>
          intro h
          rw [emitThen_snd] at h
          obtain ⟨hch, hrest⟩ := andThen_snd_none h
          simp only [emitThen]
          rw [andThen_fst hch]
          exact bwalk_open_run (preind_all3 hg b d) (Or.inl ⟨rfl, rfl⟩)
            (ih (d + 1) (.seqf ys) false _ hch) (ih d (.seqf rest) true stk hrest)
        | agen ys =>
          intro h
          rw [emitThen_snd] at h
          obtain ⟨hch, hrest⟩ := andThen_snd_none h
          simp only [emitThen]
          rw [andThen_fst hch]
          exact bwalk_open_run (preind_all3 hg b d) (Or.inl ⟨rfl, rfl⟩)
            (ih (d + 1) (.seqf ys) false _ hch) (ih d (.seqf rest) true stk hrest)
        | dct ys =>
          dsimp only
          cases hs : (if cfg.sort_keys then sortedE fuel ys else .ok ys) with
          | error e => intro h; simp at h
          | ok zs =>
            intro h
            rw [emitThen_snd] at h
            obtain ⟨hch, hrest⟩ := andThen_snd_none h
            simp only [emitThen]
            rw [andThen_fst hch]
            exact bwalk_open_run (preind_all3 hg b d) (Or.inr ⟨rfl, rfl⟩)
              (ih (d + 1) (.dictf zs) false _ hch) (ih d (.seqf rest) true stk hrest)
    | .dictf ((k, v) :: rest) =>
      rw [runFrame] at h ⊢
      revert h
      cases hk : classify cfg k with
      | error e => intro h; simp at h
      | ok kc =>
        dsimp only
        cases hkf : keyFrag cfg fuel kc with
        | error e => intro h; simp at h
        | ok kf =>
          dsimp only
          cases hv : classify cfg v with
          | error e => intro h; simp at h
          | ok vc =>
            cases vc with
            | scalar s =>
              intro h
              simp only [emitThen]
              exact bwalk_skip_run
                (preind_all hg b d (fun f hf => by
                  simp only [List.mem_cons, List.not_mem_nil, or_false] at hf
                  rcases hf with hf | hf | hf
                  · exact hf ▸ keyFrag_nonBracket hg hk hkf
                  · exact hf ▸ hg.ksep
                  · exact hf ▸ classify_scalar_nonBracket hg hv))
                (ih d (.dictf rest) true stk h)
            | seq ys =>
              intro h
              rw [emitThen_snd] at h
              obtain ⟨hch, hrest⟩ := andThen_snd_none h
              simp only [emitThen]
              rw [andThen_fst hch]
              exact bwalk_open_run3 (preind_all3 hg b d) (keyFrag_nonBracket hg hk hkf)
                hg.ksep (Or.inl ⟨rfl, rfl⟩)
                (ih (d + 1) (.seqf ys) false _ hch) (ih d (.dictf rest) true stk hrest)
            | agen ys =>
              intro h
              rw [emitThen_snd] at h
              obtain ⟨hch, hrest⟩ := andThen_snd_none h
              simp only [emitThen]
              rw [andThen_fst hch]
              exact bwalk_open_run3 (preind_all3 hg b d) (keyFrag_nonBracket hg hk hkf)
                hg.ksep (Or.inl ⟨rfl, rfl⟩)
                (ih (d + 1) (.seqf ys) false _ hch) (ih d (.dictf rest) true stk hrest)
            | dct ys =>
              dsimp only
              cases hs : (if cfg.sort_keys then sortedE fuel ys else .ok ys) with
              | error e => intro h; simp at h
              | ok zs =>
                intro h
                rw [emitThen_snd] at h
                obtain ⟨hch, hrest⟩ := andThen_snd_none h
                simp only [emitThen]
                rw [andThen_fst hch]
                exact bwalk_open_run3 (preind_all3 hg b d) (keyFrag_nonBracket hg hk hkf)
                  hg.ksep (Or.inr ⟨rfl, rfl⟩)
                  (ih (d + 1) (.dictf zs) false _ hch) (ih d (.dictf rest) true stk hrest)

/-! ## A standard-grammar JSON decoder (spec side)

The round-trip claim quantifies over "a standard JSON grammar".  The
following decoder is written from RFC 8259 (it is the comparison point the
claim asks for, not a translation of repository code): values are `null`,
`true`, `false`, numbers, strings, arrays and objects with string keys;
whitespace is permitted around structural tokens; string escapes are
resolved, `\uXXXX` surrogate pairs are combined into one code point.
Numbers are decoded exactly, as `mantissa × 10 ^ exponent`; how a platform
float parser would round such a decimal back to a double stays abstract (a
function `NumLit → ℚ` in the claims).  The parser recurses structurally on
an explicit fuel counter. -/

/-- A decoded JSON number: the exact decimal `mant × 10 ^ exp`. -/
structure NumLit where
  mant : ℤ
  exp : ℤ
deriving DecidableEq

/-- A decoded JSON value. -/
inductive JVal where
  | str (s : Str)
  | num (n : NumLit)
  | bool (b : Bool)
  | null
  | arr (xs : List JVal)
  | obj (ms : List (Str × JVal))

def isWsChar (c : Char) : Bool :=
  c = ' ' ∨ c = '\t' ∨ c = '\n' ∨ c = '\r'

def isDigitChar (c : Char) : Bool :=
  48 ≤ c.toNat ∧ c.toNat ≤ 57

def jskipWs : Str → Str
  | [] => []
  | c :: r => if isWsChar c then jskipWs r else c :: r

/-- Split off the longest leading run of decimal digits. -/
def spanDigits : Str → Str × Str
  | [] => ([], [])
  | c :: r =>
    if isDigitChar c then
      let (ds, r2) := spanDigits r
      (c :: ds, r2)
    else ([], c :: r)

def digitsToNat (ds : Str) : Nat :=
  ds.foldl (fun acc c => acc * 10 + (c.toNat - 48)) 0

def hexVal (c : Char) : Option Nat :=
  if 48 ≤ c.toNat ∧ c.toNat ≤ 57 then some (c.toNat - 48)
  else if 97 ≤ c.toNat ∧ c.toNat ≤ 102 then some (c.toNat - 87)
  else if 65 ≤ c.toNat ∧ c.toNat ≤ 70 then some (c.toNat - 55)
  else Option.none

def parseHex4 (a b c d : Char) : Option Nat :=
  match hexVal a, hexVal b, hexVal c, hexVal d with
  | some va, some vb, some vc, some vd => some (((va * 16 + vb) * 16 + vc) * 16 + vd)
  | _, _, _, _ => Option.none

/-- The single-character escapes of the JSON grammar. -/
def junescape : Char → Option Char
  | '"' => some '"'
  | '\\' => some '\\'
  | '/' => some '/'
  | 'b' => some (Char.ofNat 8)
  | 'f' => some (Char.ofNat 12)
  | 'n' => some '\n'
  | 'r' => some (Char.ofNat 13)
  | 't' => some '\t'
  | _ => Option.none

/-- Cons a decoded character onto a string-body result. -/
def consRes (ch : Char) : Option (Str × Str) → Option (Str × Str)
  | some p => some (ch :: p.1, p.2)
  | Option.none => Option.none

def readU : Str → Option (Nat × Str)
  | 'u' :: a :: b :: c :: d :: r =>
    match parseHex4 a b c d with
    | some n => some (n, r)
    | Option.none => Option.none
  | _ => Option.none

def readLow : Str → Option (Nat × Str)
  | '\\' :: r3 =>
    match readU r3 with
    | some (m, r4) => if 56320 ≤ m ∧ m < 57344 then some (m, r4) else Option.none
    | Option.none => Option.none
  | _ => Option.none

def decodeEscape (r : Str) : Option (Char × Str) :=
  match readU r with
  | some (n, r2) =>
    if 55296 ≤ n ∧ n < 56320 then
      match readLow r2 with
      | some (m, r4) => some (Char.ofNat (65536 + (n - 55296) * 1024 + (m - 56320)), r4)
      | Option.none => Option.none
    else if 56320 ≤ n ∧ n < 57344 then Option.none
    else some (Char.ofNat n, r2)
  | Option.none =>
    match r with
    | e :: r2 =>
      match junescape e with
      | some ch => some (ch, r2)
      | Option.none => Option.none
    | [] => Option.none

def parseStrBody : Nat → Str → Option (Str × Str)
  | 0, _ => Option.none
  | _ + 1, [] => Option.none
  | fuel + 1, c :: r =>
    if c = '"' then some ([], r)
    else if c = '\\' then
      match decodeEscape r with
      | some (ch, r2) => consRes ch (parseStrBody fuel r2)
      | Option.none => Option.none
    else if 32 ≤ c.toNat then consRes c (parseStrBody fuel r)
    else Option.none

def parseFrac : Str → Option (Str × Str)
  | '.' :: r =>
    match spanDigits r with
    | ([], _) => Option.none
    | (ds, r2) => some (ds, r2)
  | r => some ([], r)

def parseExpAfter (r : Str) : Option (ℤ × Str) :=
  let (sg, r1) : ℤ × Str :=
    match r with
    | '+' :: t => (1, t)
    | '-' :: t => (-1, t)
    | t => (1, t)
  match spanDigits r1 with
  | ([], _) => Option.none
  | (ds, r2) => some (sg * (digitsToNat ds : ℤ), r2)

/-- Optional exponent part. -/
def parseExp : Str → Option (ℤ × Str)
  | 'e' :: r => parseExpAfter r
  | 'E' :: r => parseExpAfter r
  | r => some (0, r)

/-- Decode one number token (sign, integer digits, optional fraction,
optional exponent) into its exact decimal value. -/
def splitSign : Str → Bool × Str
  | '-' :: r => (true, r)
  | r => (false, r)

def parseNum (s : Str) : Option (NumLit × Str) :=
  let (neg, s1) : Bool × Str := splitSign s
  match spanDigits s1 with
  | ([], _) => Option.none
  | (ids, r1) =>
    match parseFrac r1 with
    | Option.none => Option.none
    | some (fds, r2) =>
      match parseExp r2 with
      | Option.none => Option.none
      | some (ev, r3) =>
        some (⟨(if neg then -1 else 1) * (digitsToNat (ids ++ fds) : ℤ),
               ev - (fds.length : ℤ)⟩, r3)

mutual

/-- Decode one JSON value, skipping leading whitespace. -/
def jparseVal : Nat → Str → Option (JVal × Str)
  | 0, _ => Option.none
  | fuel + 1, s =>
    match jskipWs s with
    | 'n' :: 'u' :: 'l' :: 'l' :: r => some (.null, r)
    | 't' :: 'r' :: 'u' :: 'e' :: r => some (.bool true, r)
    | 'f' :: 'a' :: 'l' :: 's' :: 'e' :: r => some (.bool false, r)
    | '"' :: r =>
      match parseStrBody fuel r with
      | some p => some (.str p.1, p.2)
      | Option.none => Option.none
    | '[' :: r =>
      match jskipWs r with
      | ']' :: r2 => some (.arr [], r2)
      | r2 =>
        match jparseElems fuel r2 with
        | some p => some (.arr p.1, p.2)
        | Option.none => Option.none
    | '\x7b' :: r =>
      match jskipWs r with
      | '\x7d' :: r2 => some (.obj [], r2)
      | r2 =>
        match jparseMembers fuel r2 with
        | some p => some (.obj p.1, p.2)
        | Option.none => Option.none
    | c :: r =>
      if c = '-' ∨ isDigitChar c then
        match parseNum (c :: r) with
        | some p => some (.num p.1, p.2)
        | Option.none => Option.none
      else Option.none
    | [] => Option.none

/-- One or more comma-separated array elements, consuming the closing `]`. -/
def jparseElems : Nat → Str → Option (List JVal × Str)
  | 0, _ => Option.none
  | fuel + 1, s =>
    match jparseVal fuel s with
    | Option.none => Option.none
    | some (v, r) =>
      match jparseArrTail fuel r with
      | some p => some (v :: p.1, p.2)
      | Option.none => Option.none

/-- After an array element: either `,` and further elements, or `]`. -/
def jparseArrTail : Nat → Str → Option (List JVal × Str)
  | 0, _ => Option.none
  | fuel + 1, r =>
    match jskipWs r with
    | ',' :: r2 =>
      match jparseVal fuel r2 with
      | Option.none => Option.none
      | some (v, r3) =>
        match jparseArrTail fuel r3 with
        | some p => some (v :: p.1, p.2)
        | Option.none => Option.none
    | ']' :: r2 => some ([], r2)
    | _ => Option.none

/-- One or more object members, consuming the closing brace. -/
def jparseMembers : Nat → Str → Option (List (Str × JVal) × Str)
  | 0, _ => Option.none
  | fuel + 1, s =>
    match jskipWs s with
    | '"' :: r =>
      match parseStrBody fuel r with
      | Option.none => Option.none
      | some (key, r1) =>
        match jskipWs r1 with
        | ':' :: r2 =>
          match jparseVal fuel r2 with
          | Option.none => Option.none
          | some (v, r3) =>
            match jparseObjTail fuel r3 with
            | some p => some ((key, v) :: p.1, p.2)
            | Option.none => Option.none
        | _ => Option.none
    | _ => Option.none

/-- After an object member: either `,` and further members, or the closing
brace. -/
def jparseObjTail : Nat → Str → Option (List (Str × JVal) × Str)
  | 0, _ => Option.none
  | fuel + 1, r =>
    match jskipWs r with
    | ',' :: r2 =>
      match jskipWs r2 with
      | '"' :: r3 =>
        match parseStrBody fuel r3 with
        | Option.none => Option.none
        | some (key, r4) =>
          match jskipWs r4 with
          | ':' :: r5 =>
            match jparseVal fuel r5 with
            | Option.none => Option.none
            | some (v, r6) =>
              match jparseObjTail fuel r6 with
              | some p => some ((key, v) :: p.1, p.2)
              | Option.none => Option.none
          | _ => Option.none
      | _ => Option.none
    | '\x7d' :: r2 => some ([], r2)
    | _ => Option.none

end

/-- Decode a complete document: one value and nothing but whitespace after. -/
def jparse (fuel : Nat) (s : Str) : Option JVal :=
  match jparseVal fuel s with
  | some (v, r) => if jskipWs r = [] then some v else Option.none
  | Option.none => Option.none

/-! ## Structural equality and well-formedness for the round-trip claim -/

/-- The values the round-trip claim quantifies over: text, integers,
*finite* floats, booleans, `None`, and finite nesting of lists, tuples and
dicts — amended so that every dict key is text (see the C1 counterexample:
a non-text key produces output that does not parse back). -/
inductive WF : PyVal → Prop where
  | str (s : Str) : WF (.str s)
  | int (i : ℤ) : WF (.int i)
  | flt (x : ℚ) : WF (.float (.finite x))
  | bool (b : Bool) : WF (.bool b)
  | none : WF .none
  | list {xs : List PyVal} : (∀ x ∈ xs, WF x) → WF (.list xs)
  | tuple {xs : List PyVal} : (∀ x ∈ xs, WF x) → WF (.tuple xs)
  | dict {es : List (PyVal × PyVal)} :
      (∀ kv ∈ es, ∃ k : Str, kv.1 = .str k) → (∀ kv ∈ es, WF kv.2) → WF (.dict es)

/-- `FloatIn q v`: the finite float `q` occurs somewhere inside `v`. -/
inductive FloatIn (q : ℚ) : PyVal → Prop where
  | here : FloatIn q (.float (.finite q))
  | inList {xs : List PyVal} (x : PyVal) : x ∈ xs → FloatIn q x → FloatIn q (.list xs)
  | inTuple {xs : List PyVal} (x : PyVal) : x ∈ xs → FloatIn q x → FloatIn q (.tuple xs)
  | inDictKey {es : List (PyVal × PyVal)} (kv : PyVal × PyVal) :
      kv ∈ es → FloatIn q kv.1 → FloatIn q (.dict es)
  | inDictVal {es : List (PyVal × PyVal)} (kv : PyVal × PyVal) :
      kv ∈ es → FloatIn q kv.2 → FloatIn q (.dict es)

mutual
/-- Structural equality between an input value and a decoded JSON value,
modulo numeric representation: an integer matches the exact decimal it was
printed as; a finite float `x` matches any decimal literal the platform
float parser `fp` reads back as `x` (the platform guarantees this for the
repr it printed — the `FloatTok` hypothesis below). -/
inductive SE (fp : NumLit → ℚ) : PyVal → JVal → Prop where
  | str (s : Str) : SE fp (.str s) (.str s)
  | int (i : ℤ) : SE fp (.int i) (.num ⟨i, 0⟩)
  | flt (x : ℚ) (n : NumLit) : fp n = x → SE fp (.float (.finite x)) (.num n)
  | bool (b : Bool) : SE fp (.bool b) (.bool b)
  | null : SE fp .none .null
  | list {xs : List PyVal} {ys : List JVal} : SEList fp xs ys → SE fp (.list xs) (.arr ys)
  | tuple {xs : List PyVal} {ys : List JVal} : SEList fp xs ys → SE fp (.tuple xs) (.arr ys)
  | dict {es : List (PyVal × PyVal)} {ms : List (Str × JVal)} :
      SEDict fp es ms → SE fp (.dict es) (.obj ms)

inductive SEList (fp : NumLit → ℚ) : List PyVal → List JVal → Prop where
  | nil : SEList fp [] []
  | cons {x : PyVal} {y : JVal} {xs : List PyVal} {ys : List JVal} :
      SE fp x y → SEList fp xs ys → SEList fp (x :: xs) (y :: ys)

inductive SEDict (fp : NumLit → ℚ) : List (PyVal × PyVal) → List (Str × JVal) → Prop where
  | nil : SEDict fp [] []
  | cons (k : Str) {v : PyVal} {w : JVal} {es : List (PyVal × PyVal)}
      {ms : List (Str × JVal)} :
      SE fp v w → SEDict fp es ms → SEDict fp ((.str k, v) :: es) ((k, w) :: ms)
end

/-- A character that could extend a number token to its left. -/
def numCont (c : Char) : Bool :=
  isDigitChar c ∨ c = '.' ∨ c = 'e' ∨ c = 'E' ∨ c = '+' ∨ c = '-'

/-- A continuation that cannot extend a preceding number token: empty, or
headed by a non-number character (every fragment the engine emits after a
number — separators, newlines, closing brackets — qualifies). -/
def safeTail : Str → Bool
  | [] => true
  | c :: _ => !(numCont c)

/-- `t` is a standalone number token denoting `n`: it starts with a sign or
digit, and parses to exactly `n` leaving any safe continuation intact. -/
def NumTokenFor (t : Str) (n : NumLit) : Prop :=
  (∃ c r, t = c :: r ∧ (c = '-' ∨ isDigitChar c = true)) ∧
  ∀ r : Str, safeTail r = true → parseNum (t ++ r) = some (n, r)

/-- The platform contract for one float value `q`: its repr is a number
token, and the platform float parser `fp` reads that decimal back to `q`
(shortest round-trippable repr). -/
def FloatTok (cfg : Config) (fp : NumLit → ℚ) (q : ℚ) : Prop :=
  ∃ n : NumLit, NumTokenFor (cfg.frepr q) n ∧ fp n = q

/-- The configuration family of the round-trip claim: default separators and
key sorting off; `pretty`, `indent`, `ensure_ascii` and `allow_nan` are
unconstrained. -/
structure RTCfg (cfg : Config) : Prop where
  isep : cfg.item_separator = ", ".data
  ksep : cfg.key_separator = ": ".data
  sk : cfg.sort_keys = false

/-- **C1, counterexample to the claim as stated**: a dict whose key is the
integer `1` is in the claim's scope ("composed only of ... integers ... and
dicts"), encodes without error to `\x7b1: 2\x7d` — but that text has a
non-string object key, which no standard-grammar JSON decoder accepts, so
nothing structurally equal to the input can be parsed back. -/
theorem c1_counterexample :
    (encoder { pretty := false } 10 (.dict [(.int 1, .int 2)])).2 = Option.none ∧
    (encoder { pretty := false } 10 (.dict [(.int 1, .int 2)])).1.flatten =
      "\x7b1: 2\x7d".data ∧
    ∀ pfuel : Nat,
      jparse pfuel ((encoder { pretty := false } 10 (.dict [(.int 1, .int 2)])).1.flatten) =
        Option.none := by
  refine ⟨rfl, rfl, fun pf => ?_⟩
  match pf with
  | 0 => rfl
  | 1 => rfl
  | pf + 2 => rfl

/-! ## Round-trip: characters and strings -/

theorem char_valid (c : Char) :
    c.toNat < 55296 ∨ (57343 < c.toNat ∧ c.toNat < 1114112) := c.valid

theorem hexVal_hexDigit {k : Nat} (h : k < 16) : hexVal (hexDigit k) = some k := by
  interval_cases k <;> decide

theorem parseHex4_toHex4 {n : Nat} (h : n < 65536) :
    parseHex4 (hexDigit (n / 4096 % 16)) (hexDigit (n / 256 % 16))
      (hexDigit (n / 16 % 16)) (hexDigit (n % 16)) = some n := by
  rw [parseHex4, hexVal_hexDigit (Nat.mod_lt _ (by omega)),
      hexVal_hexDigit (Nat.mod_lt _ (by omega)), hexVal_hexDigit (Nat.mod_lt _ (by omega)),
      hexVal_hexDigit (Nat.mod_lt _ (by omega))]
  have e : ((n / 4096 % 16 * 16 + n / 256 % 16) * 16 + n / 16 % 16) * 16 + n % 16 = n := by
    omega
  show some (((n / 4096 % 16 * 16 + n / 256 % 16) * 16 + n / 16 % 16) * 16 + n % 16) = some n
  rw [e]

theorem lor_high_surr {x : Nat} (h : x < 1024) : 55296 ||| x = 55296 + x := by
  have h2 := Nat.mul_add_lt_is_or (i := 10) (b := x) (by norm_num; omega) 54
  norm_num at h2
  exact h2.symm

theorem lor_low_surr {x : Nat} (h : x < 1024) : 56320 ||| x = 56320 + x := by
  have h2 := Nat.mul_add_lt_is_or (i := 10) (b := x) (by norm_num; omega) 55
  norm_num at h2
  exact h2.symm

theorem uEscape_cons (n : Nat) (r : Str) :
    uEscape n ++ r = '\\' :: 'u' :: hexDigit (n / 4096 % 16) :: hexDigit (n / 256 % 16) ::
      hexDigit (n / 16 % 16) :: hexDigit (n % 16) :: r := rfl

theorem readU_hex {n : Nat} (hlt : n < 65536) (r : Str) :
    readU ('u' :: hexDigit (n / 4096 % 16) :: hexDigit (n / 256 % 16) ::
      hexDigit (n / 16 % 16) :: hexDigit (n % 16) :: r) = some (n, r) := by
  show (match parseHex4 (hexDigit (n / 4096 % 16)) (hexDigit (n / 256 % 16))
      (hexDigit (n / 16 % 16)) (hexDigit (n % 16)) with
    | some m => some (m, r)
    | Option.none => Option.none) = some (n, r)
  rw [parseHex4_toHex4 hlt]

theorem readLow_hex {m : Nat} (h1 : 56320 ≤ m) (h2 : m < 57344) (r : Str) :
    readLow ('\\' :: 'u' :: hexDigit (m / 4096 % 16) :: hexDigit (m / 256 % 16) ::
      hexDigit (m / 16 % 16) :: hexDigit (m % 16) :: r) = some (m, r) := by
  rw [readLow]
  rw [readU_hex (by omega)]
  dsimp only
  rw [if_pos ⟨h1, h2⟩]

theorem decodeEscape_hex {n : Nat} (hlt : n < 65536) (hno : ¬(55296 ≤ n ∧ n < 57344))
    (r : Str) :
    decodeEscape ('u' :: hexDigit (n / 4096 % 16) :: hexDigit (n / 256 % 16) ::
      hexDigit (n / 16 % 16) :: hexDigit (n % 16) :: r) = some (Char.ofNat n, r) := by
  unfold decodeEscape
  rw [readU_hex hlt]
  dsimp only
  rw [if_neg (by omega), if_neg (by omega)]

theorem decodeEscape_surr {n m : Nat} (hn1 : 55296 ≤ n) (hn2 : n < 56320)
    (hm1 : 56320 ≤ m) (hm2 : m < 57344) (r : Str) :
    decodeEscape ('u' :: hexDigit (n / 4096 % 16) :: hexDigit (n / 256 % 16) ::
        hexDigit (n / 16 % 16) :: hexDigit (n % 16) :: (uEscape m ++ r)) =
      some (Char.ofNat (65536 + (n - 55296) * 1024 + (m - 56320)), r) := by
  unfold decodeEscape
  rw [readU_hex (by omega)]
  dsimp only
  rw [if_pos ⟨hn1, hn2⟩, uEscape_cons, readLow_hex hm1 hm2]

theorem parseStrBody_plain {c : Char} (h1 : c ≠ '"') (h2 : c ≠ '\\') (h3 : 32 ≤ c.toNat)
    (fuel : Nat) (r : Str) :
    parseStrBody (fuel + 1) (c :: r) = consRes c (parseStrBody fuel r) := by
  rw [parseStrBody]
  rw [if_neg h1, if_neg h2, if_pos h3]

theorem parseStrBody_bslash {s r2 : Str} {ch : Char} (h : decodeEscape s = some (ch, r2))
    (fuel : Nat) :
    parseStrBody (fuel + 1) ('\\' :: s) = consRes ch (parseStrBody fuel r2) := by
  rw [parseStrBody]
  rw [if_neg (by decide : ¬('\\' = '"')), if_pos rfl, h]

theorem parseStrBody_uEscape {n : Nat} (hlt : n < 65536) (hno : ¬(55296 ≤ n ∧ n < 57344))
    (fuel : Nat) (rest : Str) :
    parseStrBody (fuel + 1) (uEscape n ++ rest) =
      consRes (Char.ofNat n) (parseStrBody fuel rest) := by
  rw [uEscape_cons]
  exact parseStrBody_bslash (decodeEscape_hex hlt hno rest) fuel

theorem parseStrBody_surrPair {c : Char} (hbig : 65535 < c.toNat) (fuel : Nat) (rest : Str) :
    parseStrBody (fuel + 1)
      ((uEscape (55296 ||| (((c.toNat - 65536) >>> 10) &&& 1023)) ++
        uEscape (56320 ||| ((c.toNat - 65536) &&& 1023))) ++ rest) =
      consRes c (parseStrBody fuel rest) := by
  have hcv := char_valid c
  have h1 : ((c.toNat - 65536) >>> 10) &&& 1023 = (c.toNat - 65536) / 1024 := by
    rw [Nat.shiftRight_eq_div_pow, show (1023 : Nat) = 2 ^ 10 - 1 by norm_num,
        Nat.and_pow_two_sub_one_of_lt_two_pow (by omega)]
  have h2 : (c.toNat - 65536) &&& 1023 = (c.toNat - 65536) % 1024 := by
    rw [show (1023 : Nat) = 2 ^ 10 - 1 by norm_num, Nat.and_pow_two_sub_one_eq_mod]
  have hs1 : 55296 ||| (((c.toNat - 65536) >>> 10) &&& 1023) =
      55296 + (c.toNat - 65536) / 1024 := by
    rw [h1]; exact lor_high_surr (by omega)
  have hs2 : 56320 ||| ((c.toNat - 65536) &&& 1023) = 56320 + (c.toNat - 65536) % 1024 := by
    rw [h2]; exact lor_low_surr (by omega)
  rw [hs1, hs2, List.append_assoc, uEscape_cons]
  rw [parseStrBody_bslash
    (decodeEscape_surr (by omega) (by omega) (by omega) (by omega) rest) fuel]
  rw [show 65536 + (55296 + (c.toNat - 65536) / 1024 - 55296) * 1024 +
      (56320 + (c.toNat - 65536) % 1024 - 56320) = c.toNat by omega]
  rw [Char.ofNat_toNat]

theorem decodeEscape_b (r : Str) : decodeEscape ('b' :: r) = some (Char.ofNat 8, r) := rfl

theorem decodeEscape_t (r : Str) : decodeEscape ('t' :: r) = some (Char.ofNat 9, r) := rfl

theorem decodeEscape_n (r : Str) : decodeEscape ('n' :: r) = some (Char.ofNat 10, r) := rfl

theorem decodeEscape_f (r : Str) : decodeEscape ('f' :: r) = some (Char.ofNat 12, r) := rfl

theorem decodeEscape_r (r : Str) : decodeEscape ('r' :: r) = some (Char.ofNat 13, r) := rfl

theorem decodeEscape_q (r : Str) : decodeEscape ('"' :: r) = some ('"', r) := rfl

theorem decodeEscape_bs (r : Str) : decodeEscape ('\\' :: r) = some ('\\', r) := rfl

/-- Round-trip of one character through the full-Unicode escaper: the parser
consumes exactly the fragment `escapeChar c` and recovers `c`. -/
theorem parseStrBody_escapeChar (c : Char) (fuel : Nat) (rest : Str) :
    parseStrBody (fuel + 1) (escapeChar c ++ rest) = consRes c (parseStrBody fuel rest) := by
  by_cases h92 : c = '\\'
  · subst h92
    show parseStrBody (fuel + 1) ('\\' :: '\\' :: rest) = _
    rw [parseStrBody_bslash (decodeEscape_bs rest) fuel]
  by_cases h34 : c = '"'
  · subst h34
    show parseStrBody (fuel + 1) ('\\' :: '"' :: rest) = _
    rw [parseStrBody_bslash (decodeEscape_q rest) fuel]
  by_cases hlt : c.toNat < 32
  · by_cases h8 : c.toNat = 8
    · have hce : c = Char.ofNat 8 := by rw [← Char.ofNat_toNat c, h8]
      subst hce
      show parseStrBody (fuel + 1) ('\\' :: 'b' :: rest) = _
      rw [parseStrBody_bslash (decodeEscape_b rest) fuel]
    by_cases h9 : c.toNat = 9
    · have hce : c = Char.ofNat 9 := by rw [← Char.ofNat_toNat c, h9]
      subst hce
      show parseStrBody (fuel + 1) ('\\' :: 't' :: rest) = _
      rw [parseStrBody_bslash (decodeEscape_t rest) fuel]
    by_cases h10 : c.toNat = 10
    · have hce : c = Char.ofNat 10 := by rw [← Char.ofNat_toNat c, h10]
      subst hce
      show parseStrBody (fuel + 1) ('\\' :: 'n' :: rest) = _
      rw [parseStrBody_bslash (decodeEscape_n rest) fuel]
    by_cases h12 : c.toNat = 12
    · have hce : c = Char.ofNat 12 := by rw [← Char.ofNat_toNat c, h12]
      subst hce
      show parseStrBody (fuel + 1) ('\\' :: 'f' :: rest) = _
      rw [parseStrBody_bslash (decodeEscape_f rest) fuel]
    by_cases h13 : c.toNat = 13
    · have hce : c = Char.ofNat 13 := by rw [← Char.ofNat_toNat c, h13]
      subst hce
      show parseStrBody (fuel + 1) ('\\' :: 'r' :: rest) = _
      rw [parseStrBody_bslash (decodeEscape_r rest) fuel]
    have hesc : escapeChar c = uEscape c.toNat := by
      rw [escapeChar, if_pos (Or.inl hlt), ESCAPE_DCT_control hlt h8 h9 h10 h12 h13]
      rfl
    rw [hesc, parseStrBody_uEscape (by omega) (by omega) fuel rest, Char.ofNat_toNat]
  have hesc : escapeChar c = [c] := by
    rw [escapeChar, if_neg]
    push_neg
    exact ⟨by omega, h92, h34⟩
  rw [hesc]
  exact parseStrBody_plain h34 h92 (by omega) fuel rest

/-- Round-trip of one character through the ASCII-only escaper. -/
theorem parseStrBody_escapeCharAscii (c : Char) (fuel : Nat) (rest : Str) :
    parseStrBody (fuel + 1) (escapeCharAscii c ++ rest) = consRes c (parseStrBody fuel rest) := by
  by_cases h92 : c = '\\'
  · subst h92
    show parseStrBody (fuel + 1) ('\\' :: '\\' :: rest) = _
    rw [parseStrBody_bslash (decodeEscape_bs rest) fuel]
  by_cases h34 : c = '"'
  · subst h34
    show parseStrBody (fuel + 1) ('\\' :: '"' :: rest) = _
    rw [parseStrBody_bslash (decodeEscape_q rest) fuel]
  by_cases hlt : c.toNat < 32
  · by_cases h8 : c.toNat = 8
    · have hce : c = Char.ofNat 8 := by rw [← Char.ofNat_toNat c, h8]
      subst hce
      show parseStrBody (fuel + 1) ('\\' :: 'b' :: rest) = _
      rw [parseStrBody_bslash (decodeEscape_b rest) fuel]
    by_cases h9 : c.toNat = 9
    · have hce : c = Char.ofNat 9 := by rw [← Char.ofNat_toNat c, h9]
      subst hce
      show parseStrBody (fuel + 1) ('\\' :: 't' :: rest) = _
      rw [parseStrBody_bslash (decodeEscape_t rest) fuel]
    by_cases h10 : c.toNat = 10
    · have hce : c = Char.ofNat 10 := by rw [← Char.ofNat_toNat c, h10]
      subst hce
      show parseStrBody (fuel + 1) ('\\' :: 'n' :: rest) = _
      rw [parseStrBody_bslash (decodeEscape_n rest) fuel]
    by_cases h12 : c.toNat = 12
    · have hce : c = Char.ofNat 12 := by rw [← Char.ofNat_toNat c, h12]
      subst hce
      show parseStrBody (fuel + 1) ('\\' :: 'f' :: rest) = _
      rw [parseStrBody_bslash (decodeEscape_f rest) fuel]
    by_cases h13 : c.toNat = 13
    · have hce : c = Char.ofNat 13 := by rw [← Char.ofNat_toNat c, h13]
      subst hce
      show parseStrBody (fuel + 1) ('\\' :: 'r' :: rest) = _
      rw [parseStrBody_bslash (decodeEscape_r rest) fuel]
    have hesc : escapeCharAscii c = uEscape c.toNat := by
      rw [escapeCharAscii, if_pos (by omega),
          ESCAPE_DCT_control hlt h8 h9 h10 h12 h13]
    rw [hesc, parseStrBody_uEscape (by omega) (by omega) fuel rest, Char.ofNat_toNat]
  by_cases hmid : c.toNat < 127
  · have hesc : escapeCharAscii c = [c] := by
      rw [escapeCharAscii, if_neg]
      push_neg
      exact ⟨h92, h34, by omega, by omega⟩
    rw [hesc]
    exact parseStrBody_plain h34 h92 (by omega) fuel rest
  by_cases hbmp : c.toNat < 65536
  · have hesc : escapeCharAscii c = uEscape c.toNat := by
      rw [escapeCharAscii, if_pos (by omega),
          lookup_none_of_keys_lt ESCAPE_DCT ESCAPE_DCT_keys_small (by omega)]
      dsimp only
      rw [if_pos hbmp]
    have hcv := char_valid c
    rw [hesc, parseStrBody_uEscape hbmp (by omega) fuel rest, Char.ofNat_toNat]
  have hesc : escapeCharAscii c =
      uEscape (55296 ||| (((c.toNat - 65536) >>> 10) &&& 1023)) ++
        uEscape (56320 ||| ((c.toNat - 65536) &&& 1023)) := by
    rw [escapeCharAscii, if_pos (by omega),
        lookup_none_of_keys_lt ESCAPE_DCT ESCAPE_DCT_keys_small (by omega)]
    dsimp only
    rw [if_neg (by omega)]
  rw [hesc]
  exact parseStrBody_surrPair (by omega) fuel rest

/-- String-body round trip for any escaper satisfying the per-character
round-trip property, given enough parser fuel. -/
theorem parseStrBody_flatMap (esc : Char → Str)
    (hesc : ∀ c fuel rest,
      parseStrBody (fuel + 1) (esc c ++ rest) = consRes c (parseStrBody fuel rest))
    (s : Str) (rest : Str) (fuel : Nat) (hf : s.length + 1 ≤ fuel) :
    parseStrBody fuel (s.flatMap esc ++ ('"' :: rest)) = some (s, rest) := by
  induction s generalizing fuel with
  | nil =>
    cases fuel with
    | zero => simp at hf
    | succ f =>
      show parseStrBody (f + 1) ('"' :: rest) = some ([], rest)
      rw [parseStrBody]
      rw [if_pos rfl]
  | cons c cs ih =>
    cases fuel with
    | zero => simp at hf
    | succ f =>
      have he : (c :: cs).flatMap esc ++ ('"' :: rest) =
          esc c ++ (cs.flatMap esc ++ ('"' :: rest)) := by
        simp [List.flatMap_cons, List.append_assoc]
      rw [he, hesc c f _, ih f (by simp at hf ⊢; omega)]
      rfl

/-- A rendered string scalar, followed by anything, is a quote, a body the
parser maps back to the original string, and the rest. -/
theorem parseStrBody_encodeString (cfg : Config) (s rest : Str) (fuel : Nat)
    (hf : s.length + 1 ≤ fuel) :
    encodeString cfg s ++ rest =
      '"' :: (s.flatMap (if cfg.ensure_ascii then escapeCharAscii else escapeChar) ++
        ('"' :: rest)) ∧
    parseStrBody fuel
      (s.flatMap (if cfg.ensure_ascii then escapeCharAscii else escapeChar) ++
        ('"' :: rest)) = some (s, rest) := by
  constructor
  · rw [encodeString]
    rcases h : cfg.ensure_ascii with _ | _ <;>
      simp [h, py_encode_basestring, py_encode_basestring_ascii, List.append_assoc]
  · rcases h : cfg.ensure_ascii with _ | _
    · simp only [h, if_neg Bool.false_ne_true]
      exact parseStrBody_flatMap escapeChar parseStrBody_escapeChar s rest fuel hf
    · simp only [h, if_pos rfl]
      exact parseStrBody_flatMap escapeCharAscii parseStrBody_escapeCharAscii s rest fuel hf

/-! ## Whitespace-skipping support -/

theorem jskipWs_cons_ws {c : Char} (h : isWsChar c = true) (r : Str) :
    jskipWs (c :: r) = jskipWs r := by
  rw [jskipWs, if_pos h]

theorem jskipWs_cons_nonws {c : Char} (h : isWsChar c = false) (r : Str) :
    jskipWs (c :: r) = c :: r := by
  rw [jskipWs, if_neg]
  simp [h]

theorem jskipWs_append_allws {a : Str} (ha : ∀ c ∈ a, isWsChar c = true) (b : Str) :
    jskipWs (a ++ b) = jskipWs b := by
  induction a with
  | nil => rw [List.nil_append]
  | cons c t ih =>
    rw [List.cons_append, jskipWs_cons_ws (ha c (List.mem_cons_self _ _))]
    exact ih fun x hx => ha x (List.mem_cons_of_mem _ hx)

theorem jskipWs_idem (s : Str) : jskipWs (jskipWs s) = jskipWs s := by
  induction s with
  | nil => rfl
  | cons c r ih =>
    by_cases h : isWsChar c = true
    · rw [jskipWs_cons_ws h, ih]
    · rw [jskipWs_cons_nonws (by simpa using h), jskipWs_cons_nonws (by simpa using h)]

theorem indentFrag_allws (cfg : Config) (n : Nat) :
    ∀ c ∈ indentFrag cfg n, isWsChar c = true := by
  intro c hc
  rw [indentFrag] at hc
  rw [List.eq_of_mem_replicate hc]
  rfl

/-! ## Parser dispatch lemmas: one JSON value by its head character -/

theorem jparseVal_skip (q : Nat) (s : Str) : jparseVal (q + 1) s = jparseVal (q + 1) (jskipWs s) := by
  rw [jparseVal]
  conv_rhs => rw [jparseVal]
  rw [jskipWs_idem]

theorem jparseVal_null (q : Nat) (r : Str) :
    jparseVal (q + 1) ('n' :: 'u' :: 'l' :: 'l' :: r) = some (.null, r) := rfl

theorem jparseVal_true (q : Nat) (r : Str) :
    jparseVal (q + 1) ('t' :: 'r' :: 'u' :: 'e' :: r) = some (.bool true, r) := rfl

theorem jparseVal_false (q : Nat) (r : Str) :
    jparseVal (q + 1) ('f' :: 'a' :: 'l' :: 's' :: 'e' :: r) = some (.bool false, r) := rfl

theorem jparseVal_str {fuel : Nat} {body s rest : Str}
    (hp : parseStrBody fuel body = some (s, rest)) :
    jparseVal (fuel + 1) ('"' :: body) = some (.str s, rest) := by
  rw [jparseVal, jskipWs_cons_nonws (by decide)]
  split
  all_goals rename_i heq
  all_goals try (refine absurd heq ?_; simp; done)
  · injection heq with h1 h2
    subst h2
    rw [hp]
  · injection heq with h1 h2
    subst h1
    exact absurd rfl (by assumption)

theorem jparseVal_num {c : Char} (hc : c = '-' ∨ isDigitChar c = true) {r : Str}
    {n : NumLit} {rest : Str} (hp : parseNum (c :: r) = some (n, rest)) (q : Nat) :
    jparseVal (q + 1) (c :: r) = some (.num n, rest) := by
  have hws : isWsChar c = false := by
    rcases hc with h | h
    · subst h; rfl
    · simp [isDigitChar] at h
      cases hw : isWsChar c
      · rfl
      · exfalso
        simp [isWsChar] at hw
        rcases hw with h2 | h2 | h2 | h2 <;> (subst h2; revert h; decide)
  rw [jparseVal, jskipWs_cons_nonws hws]
  split
  all_goals rename_i heq
  all_goals try
    (injection heq with h1 h2; subst h1;
     rcases hc with h | h
     · exact absurd h (by decide)
     · exact absurd h (by decide))
  all_goals try (refine absurd heq ?_; simp; done)
  · injection heq with h1 h2
    subst h1
    subst h2
    rw [if_pos hc, hp]

theorem jparseVal_arr {q : Nat} {r1 : Str} {c : Char} {t : Str} (hin : jskipWs r1 = c :: t)
    (hcb : c ≠ ']') {xs : List JVal} {rest : Str}
    (hp : jparseElems q (c :: t) = some (xs, rest)) :
    jparseVal (q + 1) ('[' :: r1) = some (.arr xs, rest) := by
  rw [jparseVal, jskipWs_cons_nonws (by decide)]
  split
  all_goals rename_i heq
  all_goals try (refine absurd heq ?_; simp; done)
  · -- the '[' branch
    injection heq with h1 h2
    subst h2
    rw [hin]
    split
    · rename_i heq2
      injection heq2 with h3 h4
      exact absurd h3 hcb
    · rw [hp]
  · injection heq with h1 h2
    subst h1
    exact absurd rfl (by assumption)

theorem jparseVal_arrNil {q : Nat} {r1 rest : Str} (hin : jskipWs r1 = ']' :: rest) :
    jparseVal (q + 1) ('[' :: r1) = some (.arr [], rest) := by
  rw [jparseVal, jskipWs_cons_nonws (by decide)]
  split
  all_goals rename_i heq
  all_goals try (refine absurd heq ?_; simp; done)
  · injection heq with h1 h2
    subst h2
    rw [hin]
    rfl
  · injection heq with h1 h2
    subst h1
    exact absurd rfl (by assumption)

theorem jparseVal_obj {q : Nat} {r1 : Str} {t : Str} (hin : jskipWs r1 = '"' :: t)
    {ms : List (Str × JVal)} {rest : Str}
    (hp : jparseMembers q ('"' :: t) = some (ms, rest)) :
    jparseVal (q + 1) ('\x7b' :: r1) = some (.obj ms, rest) := by
  rw [jparseVal, jskipWs_cons_nonws (by decide)]
  split
  all_goals rename_i heq
  all_goals try (refine absurd heq ?_; simp; done)
  · injection heq with h1 h2
    subst h2
    rw [hin]
    split
    · rename_i heq2
      injection heq2 with h3 h4
      exact absurd h3 (by decide)
    · rw [hp]
  · injection heq with h1 h2
    subst h1
    exact absurd rfl (by assumption)

theorem jparseVal_objNil {q : Nat} {r1 rest : Str} (hin : jskipWs r1 = '\x7d' :: rest) :
    jparseVal (q + 1) ('\x7b' :: r1) = some (.obj [], rest) := by
  rw [jparseVal, jskipWs_cons_nonws (by decide)]
  split
  all_goals rename_i heq
  all_goals try (refine absurd heq ?_; simp; done)
  · injection heq with h1 h2
    subst h2
    rw [hin]
    rfl
  · injection heq with h1 h2
    subst h1
    exact absurd rfl (by assumption)

/-! ## Parser composition lemmas: elements, members and tails -/

theorem jparseElems_step {q : Nat} {s : Str} {w : JVal} {X : Str} {tws : List JVal}
    {rest : Str} (h1 : jparseVal q s = some (w, X))
    (h2 : jparseArrTail q X = some (tws, rest)) :
    jparseElems (q + 1) s = some (w :: tws, rest) := by
  rw [jparseElems, h1]
  dsimp only
  rw [h2]

theorem jparseArrTail_comma {q : Nat} {s r2 : Str} (hskip : jskipWs s = ',' :: r2)
    {w : JVal} {X : Str} (h1 : jparseVal q r2 = some (w, X)) {tws : List JVal} {rest : Str}
    (h2 : jparseArrTail q X = some (tws, rest)) :
    jparseArrTail (q + 1) s = some (w :: tws, rest) := by
  rw [jparseArrTail, hskip]
  split
  · rename_i ra heq
    injection heq with h3 h4
    subst h4
    rw [h1]
    dsimp only
    rw [h2]
  · rename_i ra heq
    exact absurd heq (by simp)
  · rename_i hc hb
    exact absurd rfl (hc r2)

theorem jparseArrTail_close {q : Nat} {s rest : Str} (hskip : jskipWs s = ']' :: rest) :
    jparseArrTail (q + 1) s = some ([], rest) := by
  rw [jparseArrTail, hskip]
  rfl

theorem jparseMembers_step {q : Nat} {s r : Str} (hskip : jskipWs s = '"' :: r)
    {key r1 : Str} (hk : parseStrBody q r = some (key, r1))
    {r2 : Str} (hcol : jskipWs r1 = ':' :: r2)
    {w : JVal} {r3 : Str} (hv : jparseVal q r2 = some (w, r3))
    {ms : List (Str × JVal)} {rest : Str} (ht : jparseObjTail q r3 = some (ms, rest)) :
    jparseMembers (q + 1) s = some ((key, w) :: ms, rest) := by
  rw [jparseMembers, hskip]
  split
  · rename_i ra heq
    injection heq with h3 h4
    subst h4
    rw [hk]
    dsimp only
    rw [hcol]
    split
    · rename_i rb heq2
      injection heq2 with h5 h6
      subst h6
      rw [hv]
      dsimp only
      rw [ht]
    · rename_i hne
      exact absurd rfl (hne r2)
  · rename_i hne
    exact absurd rfl (hne r)

theorem jparseObjTail_comma {q : Nat} {s r2 : Str} (hskip : jskipWs s = ',' :: r2)
    {r3 : Str} (hskip2 : jskipWs r2 = '"' :: r3)
    {key r4 : Str} (hk : parseStrBody q r3 = some (key, r4))
    {r5 : Str} (hcol : jskipWs r4 = ':' :: r5)
    {w : JVal} {r6 : Str} (hv : jparseVal q r5 = some (w, r6))
    {ms : List (Str × JVal)} {rest : Str} (ht : jparseObjTail q r6 = some (ms, rest)) :
    jparseObjTail (q + 1) s = some ((key, w) :: ms, rest) := by
  rw [jparseObjTail, hskip]
  split
  · rename_i ra heq
    injection heq with h3 h4
    subst h4
    rw [hskip2]
    split
    · rename_i rb heq2
      injection heq2 with h5 h6
      subst h6
      rw [hk]
      dsimp only
      rw [hcol]
      split
      · rename_i rc heq3
        injection heq3 with h7 h8
        subst h8
        rw [hv]
        dsimp only
        rw [ht]
      · rename_i hne
        exact absurd rfl (hne r5)
    · rename_i hne
      exact absurd rfl (hne r3)
  · rename_i ra heq
    exact absurd heq (by simp)
  · rename_i hc hb
    exact absurd rfl (hc r2)

theorem jparseObjTail_close {q : Nat} {s rest : Str} (hskip : jskipWs s = '\x7d' :: rest) :
    jparseObjTail (q + 1) s = some ([], rest) := by
  rw [jparseObjTail, hskip]
  rfl

/-! ## Number tokens: the printed decimal forms parse back exactly -/

theorem safeTail_facts {c : Char} {r : Str} (h : safeTail (c :: r) = true) :
    isDigitChar c = false ∧ c ≠ '.' ∧ c ≠ 'e' ∧ c ≠ 'E' ∧ c ≠ '+' ∧ c ≠ '-' := by
  simp only [safeTail, Bool.not_eq_true', numCont] at h
  rw [decide_eq_false_iff_not] at h
  push_neg at h
  obtain ⟨h1, h2, h3, h4, h5, h6⟩ := h
  exact ⟨by simpa using h1, h2, h3, h4, h5, h6⟩

theorem spanDigits_cons_digit {c : Char} (h : isDigitChar c = true) (r : Str) :
    spanDigits (c :: r) = (c :: (spanDigits r).1, (spanDigits r).2) := by
  rw [spanDigits, if_pos h]

theorem spanDigits_safe {r : Str} (h : safeTail r = true) : spanDigits r = ([], r) := by
  cases r with
  | nil => rfl
  | cons c r2 =>
    rw [spanDigits, if_neg]
    simp [(safeTail_facts h).1]

theorem spanDigits_append {ds r : Str} (hd : ∀ c ∈ ds, isDigitChar c = true)
    (hr : safeTail r = true) : spanDigits (ds ++ r) = (ds, r) := by
  induction ds with
  | nil => rw [List.nil_append]; exact spanDigits_safe hr
  | cons c cs ih =>
    rw [List.cons_append, spanDigits_cons_digit (hd c (List.mem_cons_self _ _)),
        ih fun x hx => hd x (List.mem_cons_of_mem _ hx)]

theorem parseFrac_safe {r : Str} (h : safeTail r = true) : parseFrac r = some ([], r) := by
  cases r with
  | nil => rfl
  | cons c r2 =>
    rw [parseFrac.eq_def]
    split
    · rename_i r3 heq
      injection heq with h1 h2
      exact absurd h1 (safeTail_facts h).2.1
    · rfl

theorem parseExp_safe {r : Str} (h : safeTail r = true) : parseExp r = some (0, r) := by
  cases r with
  | nil => rfl
  | cons c r2 =>
    rw [parseExp.eq_def]
    split
    · rename_i r3 heq
      injection heq with h1 h2
      exact absurd h1 (safeTail_facts h).2.2.1
    · rename_i r3 heq
      injection heq with h1 h2
      exact absurd h1 (safeTail_facts h).2.2.2.1
    · rfl

theorem digitsToNat_natDigitsAux :
    ∀ fuel n : Nat, n < fuel → digitsToNat (natDigitsAux fuel n) = n := by
  intro fuel
  induction fuel with
  | zero => intro n h; omega
  | succ fuel ih =>
    intro n h
    rw [natDigitsAux]
    by_cases h10 : n < 10
    · rw [if_pos h10]
      show 0 * 10 + ((hexDigit n).toNat - 48) = n
      rw [hexDigit_lt10_toNat h10]
      omega
    · rw [if_neg h10]
      rw [digitsToNat, List.foldl_append]
      show digitsToNat (natDigitsAux fuel (n / 10)) * 10 + ((hexDigit (n % 10)).toNat - 48) = n
      rw [ih (n / 10) (by omega), hexDigit_lt10_toNat (Nat.mod_lt _ (by omega))]
      omega

theorem digitsToNat_natDigits (n : Nat) : digitsToNat (natDigits n) = n :=
  digitsToNat_natDigitsAux (n + 1) n (by omega)

theorem natDigits_ne_nil (n : Nat) : natDigits n ≠ [] := by
  rw [natDigits, natDigitsAux]
  by_cases h : n < 10
  · rw [if_pos h]; exact List.cons_ne_nil _ _
  · rw [if_neg h]; simp

theorem natDigits_digit : ∀ c ∈ natDigits n, isDigitChar c = true := by
  intro c hc
  have := natDigitsAux_chars (n + 1) n c hc
  simp only [isDigitChar, decide_eq_true_eq]
  exact this

theorem splitSign_neg (r : Str) : splitSign ('-' :: r) = (true, r) := rfl

theorem splitSign_pos {c : Char} (h : c ≠ '-') (r : Str) :
    splitSign (c :: r) = (false, c :: r) := by
  rw [splitSign.eq_def]
  split
  · rename_i t heq
    injection heq with h1 h2
    exact absurd h1 h
  · rfl

theorem parseNum_digits {ds : Str} (hne : ds ≠ []) (hd : ∀ c ∈ ds, isDigitChar c = true)
    {r : Str} (hr : safeTail r = true) :
    parseNum (ds ++ r) = some (⟨(digitsToNat ds : ℤ), 0⟩, r) := by
  obtain ⟨c, cs, rfl⟩ : ∃ c cs, ds = c :: cs := by
    cases ds with
    | nil => exact absurd rfl hne
    | cons c cs => exact ⟨c, cs, rfl⟩
  unfold parseNum
  rw [List.cons_append, splitSign_pos
    (fun he => absurd (he ▸ hd c (List.mem_cons_self _ _)) (by decide))]
  dsimp only
  rw [spanDigits_cons_digit (hd c (List.mem_cons_self _ _)),
      spanDigits_append (fun x hx => hd x (List.mem_cons_of_mem _ hx)) hr]
  dsimp only
  rw [parseFrac_safe hr]
  dsimp only
  rw [parseExp_safe hr]
  dsimp only
  rw [List.append_nil]
  simp

theorem parseNum_neg_digits {ds : Str} (hne : ds ≠ []) (hd : ∀ c ∈ ds, isDigitChar c = true)
    {r : Str} (hr : safeTail r = true) :
    parseNum ('-' :: (ds ++ r)) = some (⟨-(digitsToNat ds : ℤ), 0⟩, r) := by
  obtain ⟨c, cs, rfl⟩ : ∃ c cs, ds = c :: cs := by
    cases ds with
    | nil => exact absurd rfl hne
    | cons c cs => exact ⟨c, cs, rfl⟩
  unfold parseNum
  rw [splitSign_neg]
  dsimp only
  rw [List.cons_append, spanDigits_cons_digit (hd c (List.mem_cons_self _ _)),
      spanDigits_append (fun x hx => hd x (List.mem_cons_of_mem _ hx)) hr]
  dsimp only
  rw [parseFrac_safe hr]
  dsimp only
  rw [parseExp_safe hr]
  dsimp only
  rw [List.append_nil]
  simp

theorem NumTokenFor_intRepr (i : ℤ) : NumTokenFor (intRepr i) ⟨i, 0⟩ := by
  constructor
  · by_cases h : i < 0
    · exact ⟨'-', natDigits i.natAbs, by rw [intRepr, if_pos h]; rfl, Or.inl rfl⟩
    · obtain ⟨c, cs, hcons⟩ : ∃ c cs, natDigits i.natAbs = c :: cs := by
        cases hnd : natDigits i.natAbs with
        | nil => exact absurd hnd (natDigits_ne_nil _)
        | cons c cs => exact ⟨c, cs, rfl⟩
      refine ⟨c, cs, ?_, Or.inr ?_⟩
      · rw [intRepr, if_neg h, List.nil_append, hcons]
      · exact natDigits_digit c (hcons ▸ List.mem_cons_self _ _)
  · intro r hr
    by_cases h : i < 0
    · rw [intRepr, if_pos h]
      rw [show (['-'] ++ natDigits i.natAbs) ++ r = '-' :: (natDigits i.natAbs ++ r) from rfl]
      rw [parseNum_neg_digits (natDigits_ne_nil _) (fun c hc => natDigits_digit c hc) hr]
      rw [digitsToNat_natDigits]
      have : -(i.natAbs : ℤ) = i := by omega
      rw [this]
    · rw [intRepr, if_neg h, List.nil_append]
      rw [parseNum_digits (natDigits_ne_nil _) (fun c hc => natDigits_digit c hc) hr]
      rw [digitsToNat_natDigits]
      have : (i.natAbs : ℤ) = i := by omega
      rw [this]

/-- The characters a number token may start with are safe heads for every
other purpose: not whitespace, not a bracket, not a separator. -/
theorem numHead_facts {c : Char} (h : c = '-' ∨ isDigitChar c = true) :
    isWsChar c = false ∧ c ≠ ']' ∧ c ≠ '\x7d' ∧ c ≠ ',' := by
  rcases h with h | h
  · subst h; exact ⟨rfl, by decide, by decide, by decide⟩
  · simp only [isDigitChar, decide_eq_true_eq] at h
    refine ⟨?_, ?_, ?_, ?_⟩
    · cases hw : isWsChar c
      · rfl
      · exfalso
        simp only [isWsChar, decide_eq_true_eq] at hw
        rcases hw with h2 | h2 | h2 | h2 <;> (subst h2; revert h; decide)
    · intro he; subst he; revert h; decide
    · intro he; subst he; revert h; decide
    · intro he; subst he; revert h; decide

/-! ## Step equations of the traversal engine, one per classification -/

theorem runFrame_seq_nil (cfg : Config) (fuel d : Nat) (begun : Bool) :
    runFrame cfg (fuel + 1) d (.seqf []) begun =
      ((if cfg.pretty && begun then ['\n' :: indentFrag cfg (d - 1)] else []) ++ [[']']],
       Option.none) := by
  rw [runFrame]

theorem runFrame_dict_nil (cfg : Config) (fuel d : Nat) (begun : Bool) :
    runFrame cfg (fuel + 1) d (.dictf []) begun =
      ((if cfg.pretty && begun then ['\n' :: indentFrag cfg (d - 1)] else []) ++ [['\x7d']],
       Option.none) := by
  rw [runFrame]

theorem runFrame_seq_scalar {cfg : Config} {x : PyVal} {s : Str}
    (hcl : classify cfg x = .ok (.scalar s)) (fuel d : Nat) (rest : List PyVal)
    (begun : Bool) :
    runFrame cfg (fuel + 1) d (.seqf (x :: rest)) begun =
      emitThen (((if begun then [cfg.item_separator] else []) ++
          (if cfg.pretty then [['\n']] else [])) ++
          (if cfg.pretty then [indentFrag cfg d] else []) ++ [s])
        (runFrame cfg fuel d (.seqf rest) true) := by
  rw [runFrame, hcl]

theorem runFrame_seq_seq {cfg : Config} {x : PyVal} {ys : List PyVal}
    (hcl : classify cfg x = .ok (.seq ys)) (fuel d : Nat) (rest : List PyVal)
    (begun : Bool) :
    runFrame cfg (fuel + 1) d (.seqf (x :: rest)) begun =
      emitThen (((if begun then [cfg.item_separator] else []) ++
          (if cfg.pretty then [['\n']] else [])) ++
          (if cfg.pretty then [indentFrag cfg d] else []) ++ [['[']])
        (andThen (runFrame cfg fuel (d + 1) (.seqf ys) false)
          fun _ => runFrame cfg fuel d (.seqf rest) true) := by
  rw [runFrame, hcl]

theorem runFrame_seq_dct {cfg : Config} (hsk : cfg.sort_keys = false) {x : PyVal}
    {es : List (PyVal × PyVal)} (hcl : classify cfg x = .ok (.dct es)) (fuel d : Nat)
    (rest : List PyVal) (begun : Bool) :
    runFrame cfg (fuel + 1) d (.seqf (x :: rest)) begun =
      emitThen (((if begun then [cfg.item_separator] else []) ++
          (if cfg.pretty then [['\n']] else [])) ++
          (if cfg.pretty then [indentFrag cfg d] else []) ++ [['\x7b']])
        (andThen (runFrame cfg fuel (d + 1) (.dictf es) false)
          fun _ => runFrame cfg fuel d (.seqf rest) true) := by
  rw [runFrame, hcl, hsk]
  rfl

theorem runFrame_dict_scalar {cfg : Config} {k v : PyVal} {kf : Str}
    (hk : classify cfg k = .ok (.scalar kf)) {s : Str}
    (hv : classify cfg v = .ok (.scalar s)) (fuel d : Nat)
    (rest : List (PyVal × PyVal)) (begun : Bool) :
    runFrame cfg (fuel + 1) d (.dictf ((k, v) :: rest)) begun =
      emitThen (((if begun then [cfg.item_separator] else []) ++
          (if cfg.pretty then [['\n']] else [])) ++
          (if cfg.pretty then [indentFrag cfg d] else []) ++ [kf, cfg.key_separator, s])
        (runFrame cfg fuel d (.dictf rest) true) := by
  rw [runFrame, hk, hv]
  rfl

theorem runFrame_dict_seq {cfg : Config} {k v : PyVal} {kf : Str}
    (hk : classify cfg k = .ok (.scalar kf)) {ys : List PyVal}
    (hv : classify cfg v = .ok (.seq ys)) (fuel d : Nat)
    (rest : List (PyVal × PyVal)) (begun : Bool) :
    runFrame cfg (fuel + 1) d (.dictf ((k, v) :: rest)) begun =
      emitThen (((if begun then [cfg.item_separator] else []) ++
          (if cfg.pretty then [['\n']] else [])) ++
          (if cfg.pretty then [indentFrag cfg d] else []) ++
          [kf, cfg.key_separator, ['[']])
        (andThen (runFrame cfg fuel (d + 1) (.seqf ys) false)
          fun _ => runFrame cfg fuel d (.dictf rest) true) := by
  rw [runFrame, hk, hv]
  rfl

theorem runFrame_dict_dct {cfg : Config} (hsk : cfg.sort_keys = false) {k v : PyVal}
    {kf : Str} (hk : classify cfg k = .ok (.scalar kf)) {es : List (PyVal × PyVal)}
    (hv : classify cfg v = .ok (.dct es)) (fuel d : Nat)
    (rest : List (PyVal × PyVal)) (begun : Bool) :
    runFrame cfg (fuel + 1) d (.dictf ((k, v) :: rest)) begun =
      emitThen (((if begun then [cfg.item_separator] else []) ++
          (if cfg.pretty then [['\n']] else [])) ++
          (if cfg.pretty then [indentFrag cfg d] else []) ++
          [kf, cfg.key_separator, ['\x7b']])
        (andThen (runFrame cfg fuel (d + 1) (.dictf es) false)
          fun _ => runFrame cfg fuel d (.dictf rest) true) := by
  rw [runFrame, hk, hv, hsk]
  rfl

/-! ## Classifier equations for the well-formed value kinds -/

theorem classify_str (cfg : Config) (s : Str) :
    classify cfg (.str s) = .ok (.scalar (encodeString cfg s)) := rfl

theorem classify_int (cfg : Config) (i : ℤ) :
    classify cfg (.int i) = .ok (.scalar (intRepr i)) := rfl

theorem classify_float_finite (cfg : Config) (q : ℚ) :
    classify cfg (.float (.finite q)) = .ok (.scalar (cfg.frepr q)) := rfl

theorem classify_bool_true (cfg : Config) :
    classify cfg (.bool true) = .ok (.scalar "true".data) := rfl

theorem classify_bool_false (cfg : Config) :
    classify cfg (.bool false) = .ok (.scalar "false".data) := rfl

theorem classify_pynone (cfg : Config) :
    classify cfg .none = .ok (.scalar "null".data) := rfl

theorem classify_list (cfg : Config) (xs : List PyVal) :
    classify cfg (.list xs) = .ok (.seq xs) := rfl

theorem classify_tuple (cfg : Config) (xs : List PyVal) :
    classify cfg (.tuple xs) = .ok (.seq xs) := rfl

theorem classify_dictv (cfg : Config) (es : List (PyVal × PyVal)) :
    classify cfg (.dict es) = .ok (.dct es) := rfl

/-! ## Small glue facts -/

theorem flatten_singleton (s : Str) : ([s] : List Str).flatten = s := by simp

theorem safeTail_cons {c : Char} (h : numCont c = false) (r : Str) :
    safeTail (c :: r) = true := by
  simp [safeTail, h]

theorem jparseVal_numTok {t : Str} {n : NumLit} (ht : NumTokenFor t n) {X : Str}
    (hX : safeTail X = true) (q : Nat) :
    jparseVal (q + 1) (t ++ X) = some (.num n, X) := by
  obtain ⟨⟨c, r, hcons, hkind⟩, hparse⟩ := ht
  subst hcons
  rw [List.cons_append]
  exact jparseVal_num hkind (by rw [← List.cons_append]; exact hparse X hX) q

theorem pyval_sizeOf_pos (x : PyVal) : 0 < sizeOf x := by
  cases x <;> simp_arith

theorem encodeString_cons (cfg : Config) (s : Str) :
    ∃ t, encodeString cfg s = '"' :: t := by
  rw [encodeString]
  split <;> exact ⟨_, rfl⟩

theorem numCont_of_ws {c : Char} (h : isWsChar c = true) : numCont c = false := by
  simp only [isWsChar, decide_eq_true_eq] at h
  rcases h with h | h | h | h <;> subst h <;> rfl

theorem preind_flatten_allws (cfg : Config) (d : Nat) :
    ∀ c ∈ (((if cfg.pretty then [['\n']] else []) ++
      ((if cfg.pretty then [indentFrag cfg d] else []) : List Str)) : List Str).flatten,
      isWsChar c = true := by
  intro c hcm
  by_cases hp : cfg.pretty = true
  · rw [if_pos hp, if_pos hp] at hcm
    simp only [List.flatten_append, List.flatten_cons, List.flatten_nil, List.append_nil,
      List.nil_append] at hcm
    rcases List.mem_append.mp hcm with h2 | h2
    · simp at h2
      subst h2
      rfl
    · exact indentFrag_allws cfg d c h2
  · rw [if_neg hp, if_neg hp] at hcm
    simp at hcm

/-! ## The round-trip induction: packaged statements

`VS`: one well-formed value, rendered at depth `d`, parses back to a
structurally equal JSON value.  `AS`/`BS`: a sequence frame (first element /
after an element) succeeds and its text parses as array elements / array
tail.  `CS`/`DS`: the same for a dict frame and object members / object
tail.  All are indexed by the engine fuel; the parser fuel is existentially
bounded. -/

def VS (cfg : Config) (fp : NumLit → ℚ) (fuel : Nat) : Prop :=
  ∀ (x : PyVal) (d : Nat), WF x → (∀ q, FloatIn q x → FloatTok cfg fp q) →
    sizeOf x ≤ fuel →
    ∃ (w : JVal) (N : Nat) (vfrags : List Str),
      SE fp x w ∧
      ((∃ s : Str, classify cfg x = Except.ok (.scalar s) ∧ vfrags = [s]) ∨
       (∃ (ys : List PyVal) (cf : List Str), classify cfg x = Except.ok (.seq ys) ∧
          runFrame cfg fuel (d + 1) (.seqf ys) false = (cf, Option.none) ∧
          vfrags = [['[']] ++ cf) ∨
       (∃ (es : List (PyVal × PyVal)) (cf : List Str),
          classify cfg x = Except.ok (.dct es) ∧
          runFrame cfg fuel (d + 1) (.dictf es) false = (cf, Option.none) ∧
          vfrags = [['\x7b']] ++ cf)) ∧
      (∃ (ch : Char) (t0 : Str), vfrags.flatten = ch :: t0 ∧ isWsChar ch = false ∧
        ch ≠ ']' ∧ ch ≠ '\x7d' ∧ ch ≠ ',') ∧
      ∀ (X : Str) (pf : Nat), N ≤ pf → safeTail X = true →
        jparseVal pf (vfrags.flatten ++ X) = some (w, X)

def AS (cfg : Config) (fp : NumLit → ℚ) (fuel : Nat) : Prop :=
  ∀ (d : Nat) (xs : List PyVal), sizeOf xs < fuel → xs ≠ [] →
    (∀ x ∈ xs, WF x) → (∀ x ∈ xs, ∀ q, FloatIn q x → FloatTok cfg fp q) →
    ∃ (frags : List Str) (ws : List JVal) (N : Nat),
      runFrame cfg fuel d (.seqf xs) false = (frags, Option.none) ∧
      SEList fp xs ws ∧
      ∀ (rest : Str) (pf : Nat), N ≤ pf →
        ∃ (ch : Char) (t : Str), jskipWs (frags.flatten ++ rest) = ch :: t ∧ ch ≠ ']' ∧
          jparseElems pf (ch :: t) = some (ws, rest)

def BS (cfg : Config) (fp : NumLit → ℚ) (fuel : Nat) : Prop :=
  ∀ (d : Nat) (xs : List PyVal), sizeOf xs < fuel →
    (∀ x ∈ xs, WF x) → (∀ x ∈ xs, ∀ q, FloatIn q x → FloatTok cfg fp q) →
    ∃ (frags : List Str) (ws : List JVal) (N : Nat),
      runFrame cfg fuel d (.seqf xs) true = (frags, Option.none) ∧
      SEList fp xs ws ∧
      (∀ rest : Str, safeTail (frags.flatten ++ rest) = true) ∧
      ∀ (rest : Str) (pf : Nat), N ≤ pf →
        jparseArrTail pf (frags.flatten ++ rest) = some (ws, rest)

def CS (cfg : Config) (fp : NumLit → ℚ) (fuel : Nat) : Prop :=
  ∀ (d : Nat) (es : List (PyVal × PyVal)), sizeOf es < fuel → es ≠ [] →
    (∀ kv ∈ es, ∃ k : Str, kv.1 = .str k) → (∀ kv ∈ es, WF kv.2) →
    (∀ kv ∈ es, ∀ q, FloatIn q kv.2 → FloatTok cfg fp q) →
    ∃ (frags : List Str) (ms : List (Str × JVal)) (N : Nat),
      runFrame cfg fuel d (.dictf es) false = (frags, Option.none) ∧
      SEDict fp es ms ∧
      ∀ (rest : Str) (pf : Nat), N ≤ pf →
        ∃ t : Str, jskipWs (frags.flatten ++ rest) = '"' :: t ∧
          jparseMembers pf ('"' :: t) = some (ms, rest)

def DS (cfg : Config) (fp : NumLit → ℚ) (fuel : Nat) : Prop :=
  ∀ (d : Nat) (es : List (PyVal × PyVal)), sizeOf es < fuel →
    (∀ kv ∈ es, ∃ k : Str, kv.1 = .str k) → (∀ kv ∈ es, WF kv.2) →
    (∀ kv ∈ es, ∀ q, FloatIn q kv.2 → FloatTok cfg fp q) →
    ∃ (frags : List Str) (ms : List (Str × JVal)) (N : Nat),
      runFrame cfg fuel d (.dictf es) true = (frags, Option.none) ∧
      SEDict fp es ms ∧
      (∀ rest : Str, safeTail (frags.flatten ++ rest) = true) ∧
      ∀ (rest : Str) (pf : Nat), N ≤ pf →
        jparseObjTail pf (frags.flatten ++ rest) = some (ms, rest)

theorem frames_rt (cfg : Config) (hc : RTCfg cfg) (fp : NumLit → ℚ) :
    ∀ fuel : Nat, VS cfg fp fuel ∧ AS cfg fp fuel ∧ BS cfg fp fuel ∧
      CS cfg fp fuel ∧ DS cfg fp fuel := by
  intro fuel
  induction fuel with
  | zero =>
    refine ⟨?_, ?_, ?_, ?_, ?_⟩
    · intro x d _ _ hsz
      exact absurd hsz (by have := pyval_sizeOf_pos x; omega)
    · intro d xs hsz
      omega
    · intro d xs hsz
      omega
    · intro d es hsz
      omega
    · intro d es hsz
      omega
  | succ fuel IH =>
    obtain ⟨ihV, ihA, ihB, ihC, ihD⟩ := IH
    have stepA : AS cfg fp (fuel + 1) := by
      intro d xs hsz hne hwf hfl
      obtain ⟨x, rest', rfl⟩ : ∃ x rest', xs = x :: rest' := by
        cases xs with
        | nil => exact absurd rfl hne
        | cons a b => exact ⟨a, b, rfl⟩
      have hszc : sizeOf x ≤ fuel ∧ sizeOf rest' < fuel := by
        simp only [List.cons.sizeOf_spec] at hsz
        have := pyval_sizeOf_pos x
        omega
      obtain ⟨w, N1, vfr, hse, hshape, ⟨ch, t0, hvflat, hchws, hch1, hch2, hch3⟩, hvparse⟩ :=
        ihV x d (hwf x (List.mem_cons_self _ _)) (hfl x (List.mem_cons_self _ _)) hszc.1
      obtain ⟨tfr, tws, N2, htrun, htse, htsafe, htparse⟩ :=
        ihB d rest' hszc.2 (fun y hy => hwf y (List.mem_cons_of_mem _ hy))
          (fun y hy => hfl y (List.mem_cons_of_mem _ hy))
      have hrunEq : runFrame cfg (fuel + 1) d (.seqf (x :: rest')) false =
          ((if cfg.pretty then [['\n']] else []) ++
            ((if cfg.pretty then [indentFrag cfg d] else []) ++ (vfr ++ tfr)),
           Option.none) := by
        rcases hshape with ⟨s, hcl, hveq⟩ | ⟨ys, cf, hcl, hcrun, hveq⟩ |
            ⟨es, cf, hcl, hcrun, hveq⟩
        · subst hveq
          rw [runFrame_seq_scalar hcl, htrun]
          simp [emitThen]
        · subst hveq
          rw [runFrame_seq_seq hcl, hcrun, htrun]
          simp [emitThen, andThen]
        · subst hveq
          rw [runFrame_seq_dct hc.sk hcl, hcrun, htrun]
          simp [emitThen, andThen]
      refine ⟨_, w :: tws, N1 + N2 + 1, hrunEq, SEList.cons hse htse, ?_⟩
      intro rest pf hpf
      obtain ⟨q, rfl⟩ : ∃ q, pf = q + 1 := ⟨pf - 1, by omega⟩
      have hvp := hvparse (tfr.flatten ++ rest) q (by omega) (htsafe rest)
      refine ⟨ch, t0 ++ (tfr.flatten ++ rest), ?_, hch1, ?_⟩
      · by_cases hp : cfg.pretty = true
        · simp only [hp, if_true, List.flatten_append, List.flatten_cons, List.flatten_nil,
            List.append_nil, List.nil_append, List.append_assoc, List.singleton_append]
          rw [show ('\n' :: (indentFrag cfg d ++ (vfr.flatten ++ tfr.flatten))) ++ rest =
              '\n' :: (indentFrag cfg d ++ (vfr.flatten ++ (tfr.flatten ++ rest))) from by
            simp]
          rw [jskipWs_cons_ws (c := '\n') (by decide),
            jskipWs_append_allws (indentFrag_allws cfg d)]
          rw [show vfr.flatten ++ (tfr.flatten ++ rest) =
              ch :: (t0 ++ (tfr.flatten ++ rest)) from by rw [hvflat, List.cons_append]]
          exact jskipWs_cons_nonws hchws _
        · simp only [if_neg hp, List.flatten_append, List.flatten_cons, List.flatten_nil,
            List.append_nil, List.nil_append, List.append_assoc]
          rw [show vfr.flatten ++ (tfr.flatten ++ rest) =
              ch :: (t0 ++ (tfr.flatten ++ rest)) from by rw [hvflat, List.cons_append]]
          exact jskipWs_cons_nonws hchws _
      · rw [show ch :: (t0 ++ (tfr.flatten ++ rest)) =
            vfr.flatten ++ (tfr.flatten ++ rest) from by rw [hvflat, List.cons_append]]
        exact jparseElems_step hvp (htparse rest q (by omega))
    have stepB : BS cfg fp (fuel + 1) := by
      intro d xs hsz hwf hfl
      cases xs with
      | nil =>
        refine ⟨(if cfg.pretty then ['\n' :: indentFrag cfg (d - 1)] else []) ++ [[']']],
          [], 1, ?_, SEList.nil, ?_, ?_⟩
        · rw [runFrame_seq_nil]
          simp
        · intro rest
          by_cases hp : cfg.pretty = true
          · simp only [hp, if_true, List.flatten_append, List.flatten_cons, List.flatten_nil,
              List.append_nil, List.nil_append, List.append_assoc, List.cons_append]
            exact safeTail_cons (by decide) _
          · simp only [if_neg hp, List.flatten_append, List.flatten_cons, List.flatten_nil,
              List.append_nil, List.nil_append, List.append_assoc, List.cons_append]
            exact safeTail_cons (by decide) _
        · intro rest pf hpf
          obtain ⟨q, rfl⟩ : ∃ q, pf = q + 1 := ⟨pf - 1, by omega⟩
          apply jparseArrTail_close
          by_cases hp : cfg.pretty = true
          · simp only [hp, if_true, List.flatten_append, List.flatten_cons, List.flatten_nil,
              List.append_nil, List.nil_append, List.append_assoc, List.cons_append]
            rw [jskipWs_cons_ws (c := '\n') (by decide),
              jskipWs_append_allws (indentFrag_allws cfg (d - 1))]
            exact jskipWs_cons_nonws (by decide) _
          · simp only [if_neg hp, List.flatten_append, List.flatten_cons, List.flatten_nil,
              List.append_nil, List.nil_append, List.append_assoc, List.cons_append]
            exact jskipWs_cons_nonws (by decide) _
      | cons x rest' =>
        have hszc : sizeOf x ≤ fuel ∧ sizeOf rest' < fuel := by
          simp only [List.cons.sizeOf_spec] at hsz
          have := pyval_sizeOf_pos x
          omega
        obtain ⟨w, N1, vfr, hse, hshape, ⟨ch, t0, hvflat, hchws, hch1, hch2, hch3⟩, hvparse⟩ :=
          ihV x d (hwf x (List.mem_cons_self _ _)) (hfl x (List.mem_cons_self _ _)) hszc.1
        obtain ⟨tfr, tws, N2, htrun, htse, htsafe, htparse⟩ :=
          ihB d rest' hszc.2 (fun y hy => hwf y (List.mem_cons_of_mem _ hy))
            (fun y hy => hfl y (List.mem_cons_of_mem _ hy))
        have hrunEq : runFrame cfg (fuel + 1) d (.seqf (x :: rest')) true =
            ([cfg.item_separator] ++ ((if cfg.pretty then [['\n']] else []) ++
              ((if cfg.pretty then [indentFrag cfg d] else []) ++ (vfr ++ tfr))),
             Option.none) := by
          rcases hshape with ⟨s, hcl, hveq⟩ | ⟨ys, cf, hcl, hcrun, hveq⟩ |
              ⟨es, cf, hcl, hcrun, hveq⟩
          · subst hveq
            rw [runFrame_seq_scalar hcl, htrun]
            simp [emitThen]
          · subst hveq
            rw [runFrame_seq_seq hcl, hcrun, htrun]
            simp [emitThen, andThen]
          · subst hveq
            rw [runFrame_seq_dct hc.sk hcl, hcrun, htrun]
            simp [emitThen, andThen]
        refine ⟨_, w :: tws, N1 + N2 + 2, hrunEq, SEList.cons hse htse, ?_, ?_⟩
        · intro rest
          rw [show ([cfg.item_separator] ++ ((if cfg.pretty then [['\n']] else []) ++
              ((if cfg.pretty then [indentFrag cfg d] else []) ++ (vfr ++ tfr))) :
                List Str).flatten ++ rest =
              ',' :: (' ' :: (((if cfg.pretty then [['\n']] else []) ++
                ((if cfg.pretty then [indentFrag cfg d] else []) ++ (vfr ++ tfr)) :
                  List Str).flatten ++ rest)) from by
            simp [hc.isep]]
          exact safeTail_cons (by decide) _
        · intro rest pf hpf
          obtain ⟨q, rfl⟩ : ∃ q, pf = q + 1 := ⟨pf - 1, by omega⟩
          obtain ⟨q', rfl⟩ : ∃ q', q = q' + 1 := ⟨q - 1, by omega⟩
          have hvp : jparseVal (q' + 1) (' ' :: (((if cfg.pretty then [['\n']] else []) ++
              ((if cfg.pretty then [indentFrag cfg d] else []) : List Str)).flatten ++
                (vfr.flatten ++ (tfr.flatten ++ rest)))) =
              some (w, tfr.flatten ++ rest) := by
            rw [jparseVal_skip, jskipWs_cons_ws (c := ' ') (by decide)]
            rw [jskipWs_append_allws]
            · rw [show vfr.flatten ++ (tfr.flatten ++ rest) =
                  ch :: (t0 ++ (tfr.flatten ++ rest)) from by rw [hvflat, List.cons_append]]
              rw [jskipWs_cons_nonws hchws]
              rw [show ch :: (t0 ++ (tfr.flatten ++ rest)) =
                  vfr.flatten ++ (tfr.flatten ++ rest) from by rw [hvflat, List.cons_append]]
              exact hvparse (tfr.flatten ++ rest) (q' + 1) (by omega) (htsafe rest)
            · exact preind_flatten_allws cfg d
          apply jparseArrTail_comma ?_ hvp (htparse rest (q' + 1) (by omega))
          rw [show ([cfg.item_separator] ++ ((if cfg.pretty then [['\n']] else []) ++
              ((if cfg.pretty then [indentFrag cfg d] else []) ++ (vfr ++ tfr))) :
                List Str).flatten ++ rest =
              ',' :: (' ' :: (((if cfg.pretty then [['\n']] else []) ++
                ((if cfg.pretty then [indentFrag cfg d] else []) : List Str)).flatten ++
                  (vfr.flatten ++ (tfr.flatten ++ rest)))) from by
            simp [hc.isep]]
          exact jskipWs_cons_nonws (by decide) _
    have stepC : CS cfg fp (fuel + 1) := by
      intro d es hsz hne hkeys hwfv hflv
      obtain ⟨kv, rest', rfl⟩ : ∃ kv rest', es = kv :: rest' := by
        cases es with
        | nil => exact absurd rfl hne
        | cons a b => exact ⟨a, b, rfl⟩
      obtain ⟨k, v⟩ := kv
      obtain ⟨key, hkeq⟩ := hkeys (k, v) (List.mem_cons_self _ _)
      simp only at hkeq
      subst hkeq
      have hszc : sizeOf v ≤ fuel ∧ sizeOf rest' < fuel := by
        simp only [List.cons.sizeOf_spec, Prod.mk.sizeOf_spec] at hsz
        have := pyval_sizeOf_pos v
        have := pyval_sizeOf_pos (.str key)
        omega
      obtain ⟨w, N1, vfr, hse, hshape, ⟨ch, t0, hvflat, hchws, hch1, hch2, hch3⟩, hvparse⟩ :=
        ihV v d (hwfv (.str key, v) (List.mem_cons_self _ _))
          (hflv (.str key, v) (List.mem_cons_self _ _)) hszc.1
      obtain ⟨tfr, ms, N2, htrun, htse, htsafe, htparse⟩ :=
        ihD d rest' hszc.2 (fun y hy => hkeys y (List.mem_cons_of_mem _ hy))
          (fun y hy => hwfv y (List.mem_cons_of_mem _ hy))
          (fun y hy => hflv y (List.mem_cons_of_mem _ hy))
      have hrunEq : runFrame cfg (fuel + 1) d (.dictf ((.str key, v) :: rest')) false =
          ((if cfg.pretty then [['\n']] else []) ++
            ((if cfg.pretty then [indentFrag cfg d] else []) ++
              ([encodeString cfg key, cfg.key_separator] ++ (vfr ++ tfr))),
           Option.none) := by
        rcases hshape with ⟨s, hcl, hveq⟩ | ⟨ys, cf, hcl, hcrun, hveq⟩ |
            ⟨es2, cf, hcl, hcrun, hveq⟩
        · subst hveq
          rw [runFrame_dict_scalar (classify_str cfg key) hcl, htrun]
          simp [emitThen]
        · subst hveq
          rw [runFrame_dict_seq (classify_str cfg key) hcl, hcrun, htrun]
          simp [emitThen, andThen]
        · subst hveq
          rw [runFrame_dict_dct hc.sk (classify_str cfg key) hcl, hcrun, htrun]
          simp [emitThen, andThen]
      refine ⟨_, (key, w) :: ms, N1 + N2 + key.length + 2, hrunEq,
        SEDict.cons key hse htse, ?_⟩
      intro rest pf hpf
      obtain ⟨q, rfl⟩ : ∃ q, pf = q + 1 := ⟨pf - 1, by omega⟩
      obtain ⟨q', rfl⟩ : ∃ q', q = q' + 1 := ⟨q - 1, by omega⟩
      obtain ⟨h1, h2⟩ := parseStrBody_encodeString cfg key
        (cfg.key_separator ++ (vfr.flatten ++ (tfr.flatten ++ rest))) (q' + 1) (by omega)
      have hvp : jparseVal (q' + 1) (' ' :: (vfr.flatten ++ (tfr.flatten ++ rest))) =
          some (w, tfr.flatten ++ rest) := by
        rw [jparseVal_skip, jskipWs_cons_ws (c := ' ') (by decide)]
        rw [show vfr.flatten ++ (tfr.flatten ++ rest) =
            ch :: (t0 ++ (tfr.flatten ++ rest)) from by rw [hvflat, List.cons_append]]
        rw [jskipWs_cons_nonws hchws]
        rw [show ch :: (t0 ++ (tfr.flatten ++ rest)) =
            vfr.flatten ++ (tfr.flatten ++ rest) from by rw [hvflat, List.cons_append]]
        exact hvparse (tfr.flatten ++ rest) (q' + 1) (by omega) (htsafe rest)
      refine ⟨key.flatMap (if cfg.ensure_ascii then escapeCharAscii else escapeChar) ++
        ('"' :: (cfg.key_separator ++ (vfr.flatten ++ (tfr.flatten ++ rest)))), ?_, ?_⟩
      · rw [show (((if cfg.pretty then [['\n']] else []) ++
            ((if cfg.pretty then [indentFrag cfg d] else []) ++
              ([encodeString cfg key, cfg.key_separator] ++ (vfr ++ tfr)))) :
                List Str).flatten ++ rest =
            (((if cfg.pretty then [['\n']] else []) ++
              ((if cfg.pretty then [indentFrag cfg d] else []) : List Str)).flatten) ++
            (encodeString cfg key ++
              (cfg.key_separator ++ (vfr.flatten ++ (tfr.flatten ++ rest)))) from by
          simp]
        rw [jskipWs_append_allws (preind_flatten_allws cfg d), h1]
        exact jskipWs_cons_nonws (by decide) _
      · apply jparseMembers_step (jskipWs_cons_nonws (by decide) _) h2 ?_ hvp
          (htparse rest (q' + 1) (by omega))
        rw [hc.ksep]
        rw [show ": ".data ++ (vfr.flatten ++ (tfr.flatten ++ rest)) =
            ':' :: (' ' :: (vfr.flatten ++ (tfr.flatten ++ rest))) from rfl]
        exact jskipWs_cons_nonws (by decide) _
    have stepD : DS cfg fp (fuel + 1) := by
      intro d es hsz hkeys hwfv hflv
      cases es with
      | nil =>
        refine ⟨(if cfg.pretty then ['\n' :: indentFrag cfg (d - 1)] else []) ++ [['\x7d']],
          [], 1, ?_, SEDict.nil, ?_, ?_⟩
        · rw [runFrame_dict_nil]
          simp
        · intro rest
          by_cases hp : cfg.pretty = true
          · simp only [hp, if_true, List.flatten_append, List.flatten_cons, List.flatten_nil,
              List.append_nil, List.nil_append, List.append_assoc, List.cons_append]
            exact safeTail_cons (by decide) _
          · simp only [if_neg hp, List.flatten_append, List.flatten_cons, List.flatten_nil,
              List.append_nil, List.nil_append, List.append_assoc, List.cons_append]
            exact safeTail_cons (by decide) _
        · intro rest pf hpf
          obtain ⟨q, rfl⟩ : ∃ q, pf = q + 1 := ⟨pf - 1, by omega⟩
          apply jparseObjTail_close
          by_cases hp : cfg.pretty = true
          · simp only [hp, if_true, List.flatten_append, List.flatten_cons, List.flatten_nil,
              List.append_nil, List.nil_append, List.append_assoc, List.cons_append]
            rw [jskipWs_cons_ws (c := '\n') (by decide),
              jskipWs_append_allws (indentFrag_allws cfg (d - 1))]
            exact jskipWs_cons_nonws (by decide) _
          · simp only [if_neg hp, List.flatten_append, List.flatten_cons, List.flatten_nil,
              List.append_nil, List.nil_append, List.append_assoc, List.cons_append]
            exact jskipWs_cons_nonws (by decide) _
      | cons kv rest' =>
        obtain ⟨k, v⟩ := kv
        obtain ⟨key, hkeq⟩ := hkeys (k, v) (List.mem_cons_self _ _)
        simp only at hkeq
        subst hkeq
        have hszc : sizeOf v ≤ fuel ∧ sizeOf rest' < fuel := by
          simp only [List.cons.sizeOf_spec, Prod.mk.sizeOf_spec] at hsz
          have := pyval_sizeOf_pos v
          have := pyval_sizeOf_pos (.str key)
          omega
        obtain ⟨w, N1, vfr, hse, hshape, ⟨ch, t0, hvflat, hchws, hch1, hch2, hch3⟩, hvparse⟩ :=
          ihV v d (hwfv (.str key, v) (List.mem_cons_self _ _))
            (hflv (.str key, v) (List.mem_cons_self _ _)) hszc.1
        obtain ⟨tfr, ms, N2, htrun, htse, htsafe, htparse⟩ :=
          ihD d rest' hszc.2 (fun y hy => hkeys y (List.mem_cons_of_mem _ hy))
            (fun y hy => hwfv y (List.mem_cons_of_mem _ hy))
            (fun y hy => hflv y (List.mem_cons_of_mem _ hy))
        have hrunEq : runFrame cfg (fuel + 1) d (.dictf ((.str key, v) :: rest')) true =
            ([cfg.item_separator] ++ ((if cfg.pretty then [['\n']] else []) ++
              ((if cfg.pretty then [indentFrag cfg d] else []) ++
                ([encodeString cfg key, cfg.key_separator] ++ (vfr ++ tfr)))),
             Option.none) := by
          rcases hshape with ⟨s, hcl, hveq⟩ | ⟨ys, cf, hcl, hcrun, hveq⟩ |
              ⟨es2, cf, hcl, hcrun, hveq⟩
          · subst hveq
            rw [runFrame_dict_scalar (classify_str cfg key) hcl, htrun]
            simp [emitThen]
          · subst hveq
            rw [runFrame_dict_seq (classify_str cfg key) hcl, hcrun, htrun]
            simp [emitThen, andThen]
          · subst hveq
            rw [runFrame_dict_dct hc.sk (classify_str cfg key) hcl, hcrun, htrun]
            simp [emitThen, andThen]
        refine ⟨_, (key, w) :: ms, N1 + N2 + key.length + 2, hrunEq,
          SEDict.cons key hse htse, ?_, ?_⟩
        · intro rest
          rw [show ([cfg.item_separator] ++ ((if cfg.pretty then [['\n']] else []) ++
              ((if cfg.pretty then [indentFrag cfg d] else []) ++
                ([encodeString cfg key, cfg.key_separator] ++ (vfr ++ tfr)))) :
                  List Str).flatten ++ rest =
              ',' :: (' ' :: ((((if cfg.pretty then [['\n']] else []) ++
                ((if cfg.pretty then [indentFrag cfg d] else []) : List Str)).flatten) ++
                (encodeString cfg key ++
                  (cfg.key_separator ++ (vfr.flatten ++ (tfr.flatten ++ rest)))))) from by
            simp [hc.isep]]
          exact safeTail_cons (by decide) _
        · intro rest pf hpf
          obtain ⟨q, rfl⟩ : ∃ q, pf = q + 1 := ⟨pf - 1, by omega⟩
          obtain ⟨q', rfl⟩ : ∃ q', q = q' + 1 := ⟨q - 1, by omega⟩
          obtain ⟨h1, h2⟩ := parseStrBody_encodeString cfg key
            (cfg.key_separator ++ (vfr.flatten ++ (tfr.flatten ++ rest))) (q' + 1) (by omega)
          have hvp : jparseVal (q' + 1) (' ' :: (vfr.flatten ++ (tfr.flatten ++ rest))) =
              some (w, tfr.flatten ++ rest) := by
            rw [jparseVal_skip, jskipWs_cons_ws (c := ' ') (by decide)]
            rw [show vfr.flatten ++ (tfr.flatten ++ rest) =
                ch :: (t0 ++ (tfr.flatten ++ rest)) from by rw [hvflat, List.cons_append]]
            rw [jskipWs_cons_nonws hchws]
            rw [show ch :: (t0 ++ (tfr.flatten ++ rest)) =
                vfr.flatten ++ (tfr.flatten ++ rest) from by rw [hvflat, List.cons_append]]
            exact hvparse (tfr.flatten ++ rest) (q' + 1) (by omega) (htsafe rest)
          have hskip : jskipWs (([cfg.item_separator] ++
              ((if cfg.pretty then [['\n']] else []) ++
              ((if cfg.pretty then [indentFrag cfg d] else []) ++
                ([encodeString cfg key, cfg.key_separator] ++ (vfr ++ tfr)))) :
                  List Str).flatten ++ rest) =
              ',' :: (' ' :: ((((if cfg.pretty then [['\n']] else []) ++
                ((if cfg.pretty then [indentFrag cfg d] else []) : List Str)).flatten) ++
                (encodeString cfg key ++
                  (cfg.key_separator ++ (vfr.flatten ++ (tfr.flatten ++ rest)))))) := by
            rw [show ([cfg.item_separator] ++ ((if cfg.pretty then [['\n']] else []) ++
                ((if cfg.pretty then [indentFrag cfg d] else []) ++
                  ([encodeString cfg key, cfg.key_separator] ++ (vfr ++ tfr)))) :
                    List Str).flatten ++ rest =
                ',' :: (' ' :: ((((if cfg.pretty then [['\n']] else []) ++
                  ((if cfg.pretty then [indentFrag cfg d] else []) : List Str)).flatten) ++
                  (encodeString cfg key ++
                    (cfg.key_separator ++ (vfr.flatten ++ (tfr.flatten ++ rest)))))) from by
              simp [hc.isep]]
            exact jskipWs_cons_nonws (by decide) _
          have hskip2 : jskipWs (' ' :: ((((if cfg.pretty then [['\n']] else []) ++
              ((if cfg.pretty then [indentFrag cfg d] else []) : List Str)).flatten) ++
              (encodeString cfg key ++
                (cfg.key_separator ++ (vfr.flatten ++ (tfr.flatten ++ rest)))))) =
              '"' :: (key.flatMap (if cfg.ensure_ascii then escapeCharAscii else escapeChar) ++
                ('"' :: (cfg.key_separator ++ (vfr.flatten ++ (tfr.flatten ++ rest))))) := by
            rw [jskipWs_cons_ws (c := ' ') (by decide),
              jskipWs_append_allws (preind_flatten_allws cfg d), h1]
            exact jskipWs_cons_nonws (by decide) _
          have hcol : jskipWs (cfg.key_separator ++ (vfr.flatten ++ (tfr.flatten ++ rest))) =
              ':' :: (' ' :: (vfr.flatten ++ (tfr.flatten ++ rest))) := by
            rw [hc.ksep]
            rw [show ": ".data ++ (vfr.flatten ++ (tfr.flatten ++ rest)) =
                ':' :: (' ' :: (vfr.flatten ++ (tfr.flatten ++ rest))) from rfl]
            exact jskipWs_cons_nonws (by decide) _
          exact jparseObjTail_comma hskip hskip2 h2 hcol hvp
            (htparse rest (q' + 1) (by omega))
    have stepV : VS cfg fp (fuel + 1) := by
      intro x d hwf hfl hsz
      cases hwf with
      | str s =>
        obtain ⟨kt, hkt⟩ := encodeString_cons cfg s
        refine ⟨.str s, s.length + 2, [encodeString cfg s], SE.str s,
          Or.inl ⟨_, classify_str cfg s, rfl⟩,
          ⟨'"', kt, by rw [flatten_singleton, hkt], by decide, by decide, by decide,
            by decide⟩, ?_⟩
        intro X pf hpf hX
        obtain ⟨q, rfl⟩ : ∃ q, pf = q + 1 := ⟨pf - 1, by omega⟩
        rw [flatten_singleton]
        obtain ⟨h1, h2⟩ := parseStrBody_encodeString cfg s X q (by omega)
        rw [h1]
        exact jparseVal_str h2
      | int i =>
        obtain ⟨⟨c0, r0, hcons, hkind⟩, _⟩ := NumTokenFor_intRepr i
        have hf := numHead_facts hkind
        refine ⟨.num ⟨i, 0⟩, 1, [intRepr i], SE.int i,
          Or.inl ⟨_, classify_int cfg i, rfl⟩,
          ⟨c0, r0, by rw [flatten_singleton, hcons], hf.1, hf.2.1, hf.2.2.1, hf.2.2.2⟩, ?_⟩
        intro X pf hpf hX
        obtain ⟨q, rfl⟩ : ∃ q, pf = q + 1 := ⟨pf - 1, by omega⟩
        rw [flatten_singleton]
        exact jparseVal_numTok (NumTokenFor_intRepr i) hX q
      | flt qv =>
        obtain ⟨n, htok, hfpn⟩ := hfl qv FloatIn.here
        obtain ⟨⟨c0, r0, hcons, hkind⟩, hpn⟩ := htok
        have hf := numHead_facts hkind
        refine ⟨.num n, 1, [cfg.frepr qv], SE.flt qv n hfpn,
          Or.inl ⟨_, classify_float_finite cfg qv, rfl⟩,
          ⟨c0, r0, by rw [flatten_singleton, hcons], hf.1, hf.2.1, hf.2.2.1, hf.2.2.2⟩, ?_⟩
        intro X pf hpf hX
        obtain ⟨q, rfl⟩ : ∃ q, pf = q + 1 := ⟨pf - 1, by omega⟩
        rw [flatten_singleton]
        exact jparseVal_numTok ⟨⟨c0, r0, hcons, hkind⟩, hpn⟩ hX q
      | bool b =>
        cases b with
        | false =>
          refine ⟨.bool false, 1, ["false".data], SE.bool false,
            Or.inl ⟨_, classify_bool_false cfg, rfl⟩,
            ⟨'f', "alse".data, by rw [flatten_singleton], by decide, by decide, by decide,
              by decide⟩, ?_⟩
          intro X pf hpf hX
          obtain ⟨q, rfl⟩ : ∃ q, pf = q + 1 := ⟨pf - 1, by omega⟩
          rw [flatten_singleton]
          rw [show "false".data ++ X = 'f' :: 'a' :: 'l' :: 's' :: 'e' :: X from rfl]
          exact jparseVal_false q X
        | true =>
          refine ⟨.bool true, 1, ["true".data], SE.bool true,
            Or.inl ⟨_, classify_bool_true cfg, rfl⟩,
            ⟨'t', "rue".data, by rw [flatten_singleton], by decide, by decide, by decide,
              by decide⟩, ?_⟩
          intro X pf hpf hX
          obtain ⟨q, rfl⟩ : ∃ q, pf = q + 1 := ⟨pf - 1, by omega⟩
          rw [flatten_singleton]
          rw [show "true".data ++ X = 't' :: 'r' :: 'u' :: 'e' :: X from rfl]
          exact jparseVal_true q X
      | none =>
        refine ⟨.null, 1, ["null".data], SE.null,
          Or.inl ⟨_, classify_pynone cfg, rfl⟩,
          ⟨'n', "ull".data, by rw [flatten_singleton], by decide, by decide, by decide,
            by decide⟩, ?_⟩
        intro X pf hpf hX
        obtain ⟨q, rfl⟩ : ∃ q, pf = q + 1 := ⟨pf - 1, by omega⟩
        rw [flatten_singleton]
        rw [show "null".data ++ X = 'n' :: 'u' :: 'l' :: 'l' :: X from rfl]
        exact jparseVal_null q X
      | @list xs hxs =>
        have hszxs : sizeOf xs < fuel + 1 := by
          simp only [PyVal.list.sizeOf_spec] at hsz
          omega
        by_cases hnil : xs = []
        · subst hnil
          refine ⟨.arr [], 2, [['[']] ++ [[']']], SE.list SEList.nil,
            Or.inr (Or.inl ⟨[], [[']']], classify_list cfg [], ?_, rfl⟩), ?_, ?_⟩
          · rw [runFrame_seq_nil]
            simp
          · exact ⟨'[', [']'], by simp, by decide, by decide, by decide, by decide⟩
          · intro X pf hpf hX
            obtain ⟨q, rfl⟩ : ∃ q, pf = q + 1 := ⟨pf - 1, by omega⟩
            rw [show ([['[']] ++ [[']']] : List Str).flatten ++ X = '[' :: (']' :: X) from by
              simp]
            exact jparseVal_arrNil (jskipWs_cons_nonws (by decide) _)
        · obtain ⟨frags, ws, N, hrun, hsel, hparse⟩ := stepA (d + 1) xs hszxs hnil hxs
            (fun y hy q hq => hfl q (FloatIn.inList y hy hq))
          refine ⟨.arr ws, N + 1, [['[']] ++ frags, SE.list hsel,
            Or.inr (Or.inl ⟨xs, frags, classify_list cfg xs, hrun, rfl⟩),
            ⟨'[', frags.flatten, by simp, by decide, by decide, by decide, by decide⟩, ?_⟩
          intro X pf hpf hX
          obtain ⟨q, rfl⟩ : ∃ q, pf = q + 1 := ⟨pf - 1, by omega⟩
          rw [show ([['[']] ++ frags).flatten ++ X = '[' :: (frags.flatten ++ X) from by
            simp]
          obtain ⟨ch, t, hskip, hch, hpe⟩ := hparse X q (by omega)
          exact jparseVal_arr hskip hch hpe
      | @tuple xs hxs =>
        have hszxs : sizeOf xs < fuel + 1 := by
          simp only [PyVal.tuple.sizeOf_spec] at hsz
          omega
        by_cases hnil : xs = []
        · subst hnil
          refine ⟨.arr [], 2, [['[']] ++ [[']']], SE.tuple SEList.nil,
            Or.inr (Or.inl ⟨[], [[']']], classify_tuple cfg [], ?_, rfl⟩), ?_, ?_⟩
          · rw [runFrame_seq_nil]
            simp
          · exact ⟨'[', [']'], by simp, by decide, by decide, by decide, by decide⟩
          · intro X pf hpf hX
            obtain ⟨q, rfl⟩ : ∃ q, pf = q + 1 := ⟨pf - 1, by omega⟩
            rw [show ([['[']] ++ [[']']] : List Str).flatten ++ X = '[' :: (']' :: X) from by
              simp]
            exact jparseVal_arrNil (jskipWs_cons_nonws (by decide) _)
        · obtain ⟨frags, ws, N, hrun, hsel, hparse⟩ := stepA (d + 1) xs hszxs hnil hxs
            (fun y hy q hq => hfl q (FloatIn.inTuple y hy hq))
          refine ⟨.arr ws, N + 1, [['[']] ++ frags, SE.tuple hsel,
            Or.inr (Or.inl ⟨xs, frags, classify_tuple cfg xs, hrun, rfl⟩),
            ⟨'[', frags.flatten, by simp, by decide, by decide, by decide, by decide⟩, ?_⟩
          intro X pf hpf hX
          obtain ⟨q, rfl⟩ : ∃ q, pf = q + 1 := ⟨pf - 1, by omega⟩
          rw [show ([['[']] ++ frags).flatten ++ X = '[' :: (frags.flatten ++ X) from by
            simp]
          obtain ⟨ch, t, hskip, hch, hpe⟩ := hparse X q (by omega)
          exact jparseVal_arr hskip hch hpe
      | @dict es hkeys hvals =>
        have hszes : sizeOf es < fuel + 1 := by
          simp only [PyVal.dict.sizeOf_spec] at hsz
          omega
        by_cases hnil : es = []
        · subst hnil
          refine ⟨.obj [], 2, [['\x7b']] ++ [['\x7d']], SE.dict SEDict.nil,
            Or.inr (Or.inr ⟨[], [['\x7d']], classify_dictv cfg [], ?_, rfl⟩), ?_, ?_⟩
          · rw [runFrame_dict_nil]
            simp
          · exact ⟨'\x7b', ['\x7d'], by simp, by decide, by decide, by decide, by decide⟩
          · intro X pf hpf hX
            obtain ⟨q, rfl⟩ : ∃ q, pf = q + 1 := ⟨pf - 1, by omega⟩
            rw [show ([['\x7b']] ++ [['\x7d']] : List Str).flatten ++ X =
                '\x7b' :: ('\x7d' :: X) from by simp]
            exact jparseVal_objNil (jskipWs_cons_nonws (by decide) _)
        · obtain ⟨frags, ms, N, hrun, hsed, hparse⟩ := stepC (d + 1) es hszes hnil hkeys hvals
            (fun kv hkv q hq => hfl q (FloatIn.inDictVal kv hkv hq))
          refine ⟨.obj ms, N + 1, [['\x7b']] ++ frags, SE.dict hsed,
            Or.inr (Or.inr ⟨es, frags, classify_dictv cfg es, hrun, rfl⟩),
            ⟨'\x7b', frags.flatten, by simp, by decide, by decide, by decide, by decide⟩, ?_⟩
          intro X pf hpf hX
          obtain ⟨q, rfl⟩ : ∃ q, pf = q + 1 := ⟨pf - 1, by omega⟩
          rw [show ([['\x7b']] ++ frags).flatten ++ X = '\x7b' :: (frags.flatten ++ X) from by
            simp]
          obtain ⟨t, hskip, hpm⟩ := hparse X q (by omega)
          exact jparseVal_obj hskip hpm
    exact ⟨stepV, stepA, stepB, stepC, stepD⟩

/-! ## Claims -/

/-- **C1** (amended): for every input built from text strings, integers,
finite floats, booleans, `None`, and finite nesting of lists/tuples and
dicts *whose keys are text* (the original claim, quantifying over dicts
with any keys, is refuted by `c1_counterexample`), under the default
separators with `sort_keys` off (`pretty`, `indent`, `ensure_ascii`,
`allow_nan` arbitrary), and a platform float repr that emits round-trippable
number tokens: the encoder succeeds, and the concatenation of the produced
fragments parses under the RFC 8259 grammar (`jparse`) to a JSON value
structurally equal to the input modulo numeric representation (`SE`). -/
theorem c1_round_trip (cfg : Config) (hc : RTCfg cfg) (fp : NumLit → ℚ) (v : PyVal)
    (hwf : WF v) (hfl : ∀ q, FloatIn q v → FloatTok cfg fp q) :
    ∃ (fuel : Nat) (frags : List Str) (w : JVal) (N : Nat),
      encoder cfg fuel v = (frags, Option.none) ∧
      SE fp v w ∧
      ∀ pf, N ≤ pf → jparse pf frags.flatten = some w := by
  obtain ⟨w, N, vfrags, hse, hshape, hhead, hparse⟩ :=
    (frames_rt cfg hc fp (sizeOf v)).1 v 0 hwf hfl le_rfl
  refine ⟨sizeOf v, vfrags, w, N + 1, ?_, hse, ?_⟩
  · rcases hshape with ⟨s, hcl, hveq⟩ | ⟨ys, cf, hcl, hrun, hveq⟩ | ⟨es, cf, hcl, hrun, hveq⟩
    · subst hveq
      unfold encoder
      rw [hcl]
    · subst hveq
      unfold encoder
      rw [hcl]
      dsimp only
      rw [show (0 : Nat) + 1 = 1 from rfl] at hrun
      rw [hrun]
      rfl
    · subst hveq
      unfold encoder
      rw [hcl]
      dsimp only
      rw [show (0 : Nat) + 1 = 1 from rfl] at hrun
      rw [hrun]
      rfl
  · intro pf hpf
    obtain ⟨q, rfl⟩ : ∃ q, pf = q + 1 := ⟨pf - 1, by omega⟩
    have hp := hparse [] (q + 1) (by omega) rfl
    rw [List.append_nil] at hp
    unfold jparse
    rw [hp]
    rfl

/-- Witness for `c1_round_trip`: a list holding a negative integer, a float
(printed `3` by the witness platform repr, read back as `3`), a string, a
boolean and a null, in the default configuration. -/
theorem c1_witness :
    ∃ (fuel : Nat) (frags : List Str) (w : JVal) (N : Nat),
      encoder { frepr := fun _ => intRepr 3 } fuel
          (.list [.int (-2), .float (.finite 3), .str ['a'], .bool true, .none]) =
        (frags, Option.none) ∧
      SE (fun n => if n = ⟨3, 0⟩ then (3 : ℚ) else 0)
        (.list [.int (-2), .float (.finite 3), .str ['a'], .bool true, .none]) w ∧
      ∀ pf, N ≤ pf → jparse pf frags.flatten = some w :=
  c1_round_trip { frepr := fun _ => intRepr 3 } ⟨rfl, rfl, rfl⟩
    (fun n => if n = ⟨3, 0⟩ then (3 : ℚ) else 0)
    (.list [.int (-2), .float (.finite 3), .str ['a'], .bool true, .none])
    (by
      refine WF.list ?_
      intro x hx
      simp only [List.mem_cons, List.not_mem_nil, or_false] at hx
      rcases hx with rfl | rfl | rfl | rfl | rfl
      · exact WF.int _
      · exact WF.flt _
      · exact WF.str _
      · exact WF.bool _
      · exact WF.none)
    (by
      intro q hq
      cases hq with
      | inList x hx hfi =>
        simp only [List.mem_cons, List.not_mem_nil, or_false] at hx
        rcases hx with rfl | rfl | rfl | rfl | rfl
        · cases hfi
        · cases hfi with
          | here => exact ⟨⟨3, 0⟩, NumTokenFor_intRepr 3, by simp⟩
        · cases hfi
        · cases hfi
        · cases hfi)


/-- **C2** (code bug in the source, exhibited): with `sort_keys=True`, a dict
at the **root** is iterated in its original order — line 210 builds the root
iterator without `sorted`, so encoding the root mapping with entries
`"b", "a"` emits `"b"` first — while the *same* mapping nested one level
deeper is sorted (line 252), emitting `"a"` first.  The claim (and the spec)
says sorting happens at any nesting level including the root. -/
theorem c2_sort_keys_root_divergence :
    (encoder { pretty := false, sort_keys := true } 10
        (.dict [(.str "b".data, .int 0), (.str "a".data, .int 0)])).1.flatten =
      "\x7b\"b\": 0, \"a\": 0\x7d".data ∧
    (encoder { pretty := false, sort_keys := true } 10
        (.dict [(.str "b".data, .int 0), (.str "a".data, .int 0)])).2 = Option.none ∧
    (encoder { pretty := false, sort_keys := true } 10
        (.list [.dict [(.str "b".data, .int 0), (.str "a".data, .int 0)]])).1.flatten =
      "[\x7b\"a\": 0, \"b\": 0\x7d]".data := by
  refine ⟨by decide, by decide, by decide⟩

/-- **C3, counterexample to the claim as stated**: the claim says a numeric
object key makes the encode call fail with a key-not-encodable error.  It
does not: `7` classifies as `OBJTYPE_STRING` with payload `"7"` and line 290
emits that payload directly, so `\x7b7: 1\x7d` encodes without any error. -/
theorem c3_counterexample :
    encoder { pretty := false } 10 (.dict [(.int 7, .int 1)]) =
      ([['\x7b'], ['7'], [':', ' '], ['1'], ['\x7d']], Option.none) := by decide

/-- **C3, amended**: a key classified Sequence or AsyncSequence is resolved
by the default key resolver to the concatenation of `str(x)` over its
elements in iteration order, then escaped and quoted by the configured
string encoder; a key classified Object fails with the key-not-encodable
error; but a key that classifies as a scalar — text or not — never fails:
its already-rendered payload is emitted directly as the key, so e.g. an
integer key is emitted unquoted and the traversal continues. -/
theorem c3_key_resolver (cfg : Config) (fuel : Nat) :
    (∀ xs, keyFrag cfg fuel (.seq xs) =
      .ok (encodeString cfg ((xs.map (pyStr cfg.frepr fuel)).flatten))) ∧
    (∀ xs, keyFrag cfg fuel (.agen xs) =
      .ok (encodeString cfg ((xs.map (pyStr cfg.frepr fuel)).flatten))) ∧
    (∀ ys, keyFrag cfg fuel (.dct ys) = .error (.keyNotEncodable "dict")) ∧
    (∀ s, keyFrag cfg fuel (.scalar s) = .ok s) ∧
    (∀ (i j : ℤ) (rest : List (PyVal × PyVal)) (d : Nat),
      runFrame cfg (fuel + 1) d (.dictf ((.int i, .int j) :: rest)) false =
        emitThen ((if cfg.pretty then [['\n']] else []) ++
                  (if cfg.pretty then [indentFrag cfg d] else []) ++
                  [intRepr i, cfg.key_separator, intRepr j])
          (runFrame cfg fuel d (.dictf rest) true)) := by
  refine ⟨fun _ => rfl, fun _ => rfl, fun _ => rfl, fun _ => rfl, fun i j rest d => ?_⟩
  rw [runFrame]
  rfl

/-- **C4**: the classifier resolves an awaitable exactly once — classifying
`deferred v` is exactly classifying `v` through the dispatch chain with no
second awaitable check, so a doubly-deferred value falls through to the
`default` hook (a coroutine object matches no `isinstance` test) and, with
no fallback configured, raises the unencodable-type error naming
`coroutine`; consequently a deferred computation resolving to `42` encodes
exactly like the literal `42`, for every configuration and fuel. -/
theorem c4_deferred_single_resolution :
    (∀ (cfg : Config) (v : PyVal), classify cfg (.deferred v) = classifyResolved cfg v) ∧
    (∀ (cfg : Config) (w : PyVal), cfg.default = Option.none →
      classify cfg (.deferred (.deferred w)) = .error (.unencodable "coroutine")) ∧
    (∀ (cfg : Config) (fuel : Nat),
      encoder cfg fuel (.deferred (.int 42)) = encoder cfg fuel (.int 42)) := by
  refine ⟨fun _ _ => rfl, fun cfg w h => ?_, fun _ _ => rfl⟩
  simp [classify, classifyResolved, pyTypeName, h]

/-- Witness for the hypothesis of `c4_deferred_single_resolution`. -/
theorem c4_witness :
    classify {} (.deferred (.deferred .none)) = .error (.unencodable "coroutine") :=
  c4_deferred_single_resolution.2.1 {} .none rfl

/-- **C5**: with `allow_nan` set, `floatstr` renders NaN as `NaN`, the two
infinities as `Infinity` / `-Infinity`, and a finite float through the
platform repr hook; with `allow_nan` unset, a finite float still renders
through the hook, while every non-finite float raises the ValueError of
lines 61-64 (carrying `repr(o)` in its message) — and at the engine level
that exception aborts the encode call before any fragment is emitted when
the float is the root value. -/
theorem c5_float_rendering (frepr : ℚ → Str) :
    floatstr .nan true frepr = .ok "NaN".data ∧
    floatstr .inf true frepr = .ok "Infinity".data ∧
    floatstr .neginf true frepr = .ok "-Infinity".data ∧
    (∀ (x : ℚ) (b : Bool), floatstr (.finite x) b frepr = .ok (frepr x)) ∧
    (∀ nf : PyFloat, (∀ x, nf ≠ .finite x) →
      floatstr nf false frepr = .error (.outOfRangeFloat (pyFloatRepr frepr nf))) ∧
    (∀ (cfg : Config) (fuel : Nat) (nf : PyFloat),
      cfg.allow_nan = false → cfg.frepr = frepr → (∀ x, nf ≠ .finite x) →
      encoder cfg fuel (.float nf) = ([], some (.outOfRangeFloat (pyFloatRepr frepr nf)))) := by
  refine ⟨rfl, rfl, rfl, fun _ _ => rfl, fun nf hnf => ?_, fun cfg fuel nf h1 h2 hnf => ?_⟩
  · cases nf with
    | finite x => exact absurd rfl (hnf x)
    | nan => rfl
    | inf => rfl
    | neginf => rfl
  · cases nf with
    | finite x => exact absurd rfl (hnf x)
    | nan => simp [encoder, classify, classifyResolved, floatstr, h1, h2]
    | inf => simp [encoder, classify, classifyResolved, floatstr, h1, h2]
    | neginf => simp [encoder, classify, classifyResolved, floatstr, h1, h2]

/-- Witness for the hypotheses of `c5_float_rendering`. -/
theorem c5_witness :
    floatstr .nan false (fun _ => "0.0".data) = .error (.outOfRangeFloat "nan".data) ∧
    encoder { allow_nan := false } 5 (.float .nan) =
      ([], some (.outOfRangeFloat "nan".data)) :=
  ⟨(c5_float_rendering (fun _ => "0.0".data)).2.2.2.2.1 .nan (fun x h => by cases h),
   (c5_float_rendering (fun _ => "0.0".data)).2.2.2.2.2 { allow_nan := false } 5 .nan rfl rfl
     (fun x h => by cases h)⟩

/-- **C6**: both string encoders wrap their output in double quotes around a
per-character replacement of the input.  In both modes every character in
0x00-0x1F plus backslash and double quote is escaped: backspace, tab,
newline, form feed and carriage return by their named escapes, backslash
and quote by backslash-doubling, every other control character as `\u00XX`
(the first two hex digits are zero).  ASCII mode additionally escapes every
character outside printable ASCII 0x20-0x7E: code points up to 0xFFFF as a
single `\uXXXX`, code points above as the UTF-16 surrogate pair
`0xD800 ||| (((n - 0x10000) >>> 10) &&& 0x3FF)`,
`0xDC00 ||| ((n - 0x10000) &&& 0x3FF)`, each written `\uXXXX`; full-Unicode
mode passes every character at or above 0x20 other than backslash and quote
through verbatim. -/
theorem c6_string_escaping (s : Str) (c : Char) :
    py_encode_basestring s = '"' :: s.flatMap escapeChar ++ ['"'] ∧
    py_encode_basestring_ascii s = '"' :: s.flatMap escapeCharAscii ++ ['"'] ∧
    (c.toNat = 8 → escapeChar c = "\\b".data ∧ escapeCharAscii c = "\\b".data) ∧
    (c.toNat = 9 → escapeChar c = "\\t".data ∧ escapeCharAscii c = "\\t".data) ∧
    (c.toNat = 10 → escapeChar c = "\\n".data ∧ escapeCharAscii c = "\\n".data) ∧
    (c.toNat = 12 → escapeChar c = "\\f".data ∧ escapeCharAscii c = "\\f".data) ∧
    (c.toNat = 13 → escapeChar c = "\\r".data ∧ escapeCharAscii c = "\\r".data) ∧
    (c = '\\' → escapeChar c = "\\\\".data ∧ escapeCharAscii c = "\\\\".data) ∧
    (c = '"' → escapeChar c = ['\\', '"'] ∧ escapeCharAscii c = ['\\', '"']) ∧
    (c.toNat < 32 → c.toNat ≠ 8 → c.toNat ≠ 9 → c.toNat ≠ 10 → c.toNat ≠ 12 → c.toNat ≠ 13 →
      escapeChar c = uEscape c.toNat ∧ escapeCharAscii c = uEscape c.toNat ∧
      (toHex4 c.toNat).take 2 = ['0', '0']) ∧
    (32 ≤ c.toNat → c ≠ '\\' → c ≠ '"' → escapeChar c = [c]) ∧
    (32 ≤ c.toNat → c.toNat ≤ 126 → c ≠ '\\' → c ≠ '"' → escapeCharAscii c = [c]) ∧
    (126 < c.toNat → c.toNat < 65536 → escapeCharAscii c = uEscape c.toNat) ∧
    (65535 < c.toNat →
      escapeCharAscii c =
        uEscape (0xd800 ||| (((c.toNat - 65536) >>> 10) &&& 0x3ff)) ++
        uEscape (0xdc00 ||| ((c.toNat - 65536) &&& 0x3ff))) := by
  have hbs : ('\\').toNat = 92 := rfl
  have hq : ('"').toNat = 34 := rfl
  refine ⟨rfl, rfl, ?_, ?_, ?_, ?_, ?_, ?_, ?_, ?_, ?_, ?_, ?_, ?_⟩
  · intro h
    constructor
    · rw [escapeChar, if_pos (Or.inl (by omega)), h]; decide
    · rw [escapeCharAscii, if_pos (by omega), h]; decide
  · intro h
    constructor
    · rw [escapeChar, if_pos (Or.inl (by omega)), h]; decide
    · rw [escapeCharAscii, if_pos (by omega), h]; decide
  · intro h
    constructor
    · rw [escapeChar, if_pos (Or.inl (by omega)), h]; decide
    · rw [escapeCharAscii, if_pos (by omega), h]; decide
  · intro h
    constructor
    · rw [escapeChar, if_pos (Or.inl (by omega)), h]; decide
    · rw [escapeCharAscii, if_pos (by omega), h]; decide
  · intro h
    constructor
    · rw [escapeChar, if_pos (Or.inl (by omega)), h]; decide
    · rw [escapeCharAscii, if_pos (by omega), h]; decide
  · intro h
    subst h
    exact ⟨by rw [escapeChar, if_pos (Or.inr (Or.inl rfl))]; decide,
           by rw [escapeCharAscii, if_pos (Or.inl rfl)]; decide⟩
  · intro h
    subst h
    exact ⟨by rw [escapeChar, if_pos (Or.inr (Or.inr rfl))]; decide,
           by rw [escapeCharAscii, if_pos (Or.inr (Or.inl rfl))]; decide⟩
  · intro h h8 h9 h10 h12 h13
    have hdct := ESCAPE_DCT_control h h8 h9 h10 h12 h13
    refine ⟨?_, ?_, ?_⟩
    · rw [escapeChar, if_pos (Or.inl h), hdct]; rfl
    · rw [escapeCharAscii, if_pos (by omega), hdct]
    · show [hexDigit (c.toNat / 4096 % 16), hexDigit (c.toNat / 256 % 16)] = ['0', '0']
      have e1 : c.toNat / 4096 % 16 = 0 := by omega
      have e2 : c.toNat / 256 % 16 = 0 := by omega
      rw [e1, e2]; decide
  · intro h hb hq2
    rw [escapeChar, if_neg]
    push_neg
    exact ⟨by omega, hb, hq2⟩
  · intro h1 h2 hb hq2
    rw [escapeCharAscii, if_neg]
    push_neg
    refine ⟨hb, hq2, by omega, by omega⟩
  · intro h1 h2
    have hb : c ≠ '\\' := fun he => by rw [he] at h1; omega
    have hq2 : c ≠ '"' := fun he => by rw [he] at h1; omega
    rw [escapeCharAscii, if_pos (by omega),
        lookup_none_of_keys_lt ESCAPE_DCT ESCAPE_DCT_keys_small h1]
    dsimp only
    rw [if_pos h2]
  · intro h1
    have hbig : 126 < c.toNat := by omega
    rw [escapeCharAscii, if_pos (by omega),
        lookup_none_of_keys_lt ESCAPE_DCT ESCAPE_DCT_keys_small hbig]
    dsimp only
    rw [if_neg (by omega)]

/-- Witness for the hypotheses of `c6_string_escaping`. -/
theorem c6_witness :
    escapeChar (Char.ofNat 8) = "\\b".data ∧
    escapeChar (Char.ofNat 1) = uEscape 1 ∧
    escapeChar 'a' = ['a'] ∧
    escapeCharAscii 'a' = ['a'] ∧
    escapeCharAscii (Char.ofNat 233) = uEscape 233 ∧
    escapeCharAscii (Char.ofNat 0x1d11e) = uEscape 0xd834 ++ uEscape 0xdd1e :=
  ⟨((c6_string_escaping [] (Char.ofNat 8)).2.2.1 (by decide)).1,
   ((c6_string_escaping [] (Char.ofNat 1)).2.2.2.2.2.2.2.2.2.1
      (by decide) (by decide) (by decide) (by decide) (by decide) (by decide)).1,
   (c6_string_escaping [] 'a').2.2.2.2.2.2.2.2.2.2.1 (by decide) (by decide) (by decide),
   (c6_string_escaping [] 'a').2.2.2.2.2.2.2.2.2.2.2.1
      (by decide) (by decide) (by decide) (by decide),
   by
     have h := (c6_string_escaping [] (Char.ofNat 233)).2.2.2.2.2.2.2.2.2.2.2.2.1
        (by decide) (by decide)
     simpa using h,
   by
     have h := (c6_string_escaping [] (Char.ofNat 0x1d11e)).2.2.2.2.2.2.2.2.2.2.2.2.2
        (by decide)
     simpa using h⟩

/-- **C7**: a value matching no classification rule raises, when no fallback
is configured, the unencodable-type error carrying the value's runtime type
name; the exception aborts the encode call — as the root, nothing is
emitted; as the first element of a list, the fragments are exactly the ones
already emitted before the failure (`[` and, when pretty, the newline),
whatever elements would have followed, and they are not retracted. -/
theorem c7_unencodable_aborts (cfg : Config) (h : cfg.default = Option.none) (t : String)
    (rest : List PyVal) (fuel : Nat) :
    classify cfg (.other t) = .error (.unencodable t) ∧
    encoder cfg fuel (.other t) = ([], some (.unencodable t)) ∧
    encoder cfg (fuel + 1) (.list (.other t :: rest)) =
      ((if cfg.pretty then [['['], ['\n']] else [['[']]), some (.unencodable t)) := by
  have hcl : classify cfg (.other t) = .error (.unencodable t) := by
    simp [classify, classifyResolved, h, pyTypeName]
  refine ⟨hcl, ?_, ?_⟩
  · simp [encoder, hcl]
  · have hroot : encoder cfg (fuel + 1) (.list (.other t :: rest)) =
        emitThen [['[']] (runFrame cfg (fuel + 1) 1 (.seqf (.other t :: rest)) false) := rfl
    rw [hroot, runFrame, hcl]
    cases hp : cfg.pretty <;> simp [hp, emitThen]

/-- Witness for the hypothesis of `c7_unencodable_aborts`. -/
theorem c7_witness :
    encoder {} 3 (.list [.other "Foo", .int 2]) =
      ([['['], ['\n']], some (.unencodable "Foo")) := by
  have h := (c7_unencodable_aborts {} rfl "Foo" [.int 2] 2).2.2
  simpa using h

/-- **C8, counterexample to the claim as stated**: the invariant does not
hold on the failure path.  Encoding `[X]` where `X` is unencodable emits the
opening `[` and then aborts: no closing `]` fragment is ever emitted, so the
opening bracket has no matching closing bracket when the call ends in
failure. -/
theorem c8_counterexample :
    encoder { pretty := false } 10 (.list [.other "X"]) =
      ([['[']], some (.unencodable "X")) ∧
    [']'] ∉ (encoder { pretty := false } 10 (.list [.other "X"])).1 := by
  exact ⟨by decide, by decide⟩

/-- **C8, amended**: on every encode call that terminates **successfully**
(no exception raised and sufficient fuel), and under a configuration whose
separators, float repr and fallback never produce a bare bracket fragment,
the bracket fragments balance: walking the fragments with a stack of
expected closers, every opening bracket is closed later by exactly one
matching bracket at its own depth, and the stack is empty at the end.  A
call that ends in failure may leave emitted opening brackets unclosed
(`c8_counterexample`). -/
theorem c8_brackets_balanced (cfg : Config) (hg : GoodCfg cfg) (fuel : Nat) (v : PyVal)
    (h : (encoder cfg fuel v).2 = Option.none) :
    bwalk [] (encoder cfg fuel v).1 = some [] := by
  revert h
  unfold encoder
  cases hc : classify cfg v with
  | error e => intro h; simp at h
  | ok c =>
    cases c with
    | scalar s =>
      intro h
      rw [bwalk_skip (classify_scalar_nonBracket hg hc)]
      rfl
    | seq xs =>
      intro h
      rw [emitThen_snd] at h
      simp only [emitThen]
      rw [show ([['[']] ++ (runFrame cfg fuel 1 (.seqf xs) false).1 : List Str) =
          ['['] :: (runFrame cfg fuel 1 (.seqf xs) false).1 from rfl, bwalk_open_sq]
      exact runFrame_balanced cfg hg fuel 1 (.seqf xs) false [] h
    | agen xs =>
      intro h
      rw [emitThen_snd] at h
      simp only [emitThen]
      rw [show ([['[']] ++ (runFrame cfg fuel 1 (.seqf xs) false).1 : List Str) =
          ['['] :: (runFrame cfg fuel 1 (.seqf xs) false).1 from rfl, bwalk_open_sq]
      exact runFrame_balanced cfg hg fuel 1 (.seqf xs) false [] h
    | dct xs =>
      intro h
      rw [emitThen_snd] at h
      simp only [emitThen]
      rw [show ([['\x7b']] ++ (runFrame cfg fuel 1 (.dictf xs) false).1 : List Str) =
          ['\x7b'] :: (runFrame cfg fuel 1 (.dictf xs) false).1 from rfl, bwalk_open_br]
      exact runFrame_balanced cfg hg fuel 1 (.dictf xs) false [] h

/-- Witness for the hypotheses of `c8_brackets_balanced`. -/
theorem c8_witness :
    bwalk [] (encoder {} 10 (.list [.dict [(.str ['a'], .int 1)], .list []])).1 = some [] :=
  c8_brackets_balanced {} ⟨by decide, by decide, fun _ => by show nonBracket "0.0".data; decide, rfl⟩ 10
    (.list [.dict [(.str ['a'], .int 1)], .list []]) (by decide)

/-- **C10**: a tuple encodes exactly like the list of its elements — both
classify as `OBJTYPE_SEQUENCE` (lines 342-343), so for every configuration
and fuel the fragment sequences coincide, they open with `[`, and on
successful termination they close with `]`. -/
theorem c10_tuple_encodes_as_list (cfg : Config) (fuel : Nat) (xs : List PyVal) :
    encoder cfg fuel (.tuple xs) = encoder cfg fuel (.list xs) ∧
    (encoder cfg fuel (.list xs)).1.head? = some ['['] ∧
    ((encoder cfg fuel (.list xs)).2 = Option.none →
      (encoder cfg fuel (.list xs)).1.getLast? = some [']']) := by
  refine ⟨rfl, rfl, fun h => ?_⟩
  have := runFrame_getLast cfg fuel 1 (.seqf xs) false h
  exact emitThen_getLast _ _ _ this

/-- Witness for the hypothesis of `c10_tuple_encodes_as_list`. -/
theorem c10_witness :
    encoder {} 5 (.tuple [.int 1]) = encoder {} 5 (.list [.int 1]) ∧
    (encoder {} 5 (.list [.int 1])).1.getLast? = some [']'] :=
  ⟨(c10_tuple_encodes_as_list {} 5 [.int 1]).1,
   (c10_tuple_encodes_as_list {} 5 [.int 1]).2.2 (by decide)⟩

end AsyncJson
